import Mathlib

/-!
Verification of the edge-bridge command-execution engine
(`services/edge-bridge`): the priority command queue with retry, timeout
and cancellation (`command_queue.py`), the register codec
(`modbus_client.py`), the data enricher (`data_publisher.py`) and the
health-alert edge detector (`health_monitor.py`).

The Python source is embedded shallowly: each Python method becomes an
executable Lean function on an explicit state record, the async dispatch
of `process_next_command` becomes an inductive step relation whose atomic
steps are the lock-protected sections of the source, and wall-clock
timestamps, UUID generation, the serial wire and IEEE-754 float registers
are left out of the model (they are noted at each definition).
-/

namespace EdgeBridge

/-- Enum `CommandStatus` from `command_queue.py`. -/
inductive CommandStatus
  | pending
  | processing
  | completed
  | failed
  | timeout
  | cancelled
deriving DecidableEq, Repr

/-- Enum `CommandPriority` from `command_queue.py`. -/
inductive CommandPriority
  | low
  | normal
  | high
  | critical
deriving DecidableEq, Repr

/-- The numeric `.value` of each `CommandPriority` enum member
(LOW = 1, NORMAL = 2, HIGH = 3, CRITICAL = 4). -/
def CommandPriority.value : CommandPriority → Nat
  | .low => 1
  | .normal => 2
  | .high => 3
  | .critical => 4

/-- The `Command` dataclass of `command_queue.py`.  The opaque `data`
payload, the wall-clock fields `created_at` / `last_attempt` and the
`mqtt_response_topic` are not modelled; `result` is modelled as an opaque
`Nat` payload.  `retry_count` defaults to 3 and no caller of the source
ever overrides it. -/
structure Command where
  id : String
  commandType : String
  priority : CommandPriority := .normal
  timeout : Nat := 30
  retryCount : Nat := 3
  status : CommandStatus := .pending
  result : Option Nat := none
  error : Option String := none
  attempts : Nat := 0
deriving DecidableEq, Repr

/-- The insertion loop of `CommandQueue._insert_by_priority`, generic in
the priority measure: the element is inserted at the first position whose
existing element has strictly lower priority (`command.priority.value >
existing_command.priority.value`), else appended at the tail. -/
def insertByPr {α : Type} (pr : α → Nat) (c : α) : List α → List α
  | [] => [c]
  | x :: xs => if pr c > pr x then c :: x :: xs else x :: insertByPr pr c xs

/-- Method `CommandQueue._insert_by_priority` on a queue of `Command` records. -/
def insertByPriority (c : Command) (q : List Command) : List Command :=
  insertByPr (fun d => d.priority.value) c q

theorem mem_insertByPr {α : Type} (pr : α → Nat) (c : α) (q : List α) (y : α) :
    y ∈ insertByPr pr c q ↔ y = c ∨ y ∈ q := by
  induction q with
  | nil => simp [insertByPr]
  | cons x xs ih =>
    by_cases h : pr c > pr x
    · simp [insertByPr, h]
    · simp only [insertByPr, if_neg h, List.mem_cons, ih]
      tauto

theorem length_insertByPr {α : Type} (pr : α → Nat) (c : α) (q : List α) :
    (insertByPr pr c q).length = q.length + 1 := by
  induction q with
  | nil => rfl
  | cons x xs ih =>
    by_cases h : pr c > pr x
    · simp [insertByPr, h]
    · simp [insertByPr, h, ih]

/-- The stability order carried through submissions: an earlier queue
element either has strictly higher priority, or the same priority and an
earlier submission tag. -/
def StableRel (a b : Nat × Command) : Prop :=
  b.2.priority.value < a.2.priority.value ∨
    (a.2.priority.value = b.2.priority.value ∧ a.1 < b.1)

theorem pairwise_insertByPr_tagged (c : Nat × Command) (q : List (Nat × Command))
    (hq : q.Pairwise StableRel) (htag : ∀ x ∈ q, x.1 < c.1) :
    (insertByPr (fun p => p.2.priority.value) c q).Pairwise StableRel := by
  induction q with
  | nil => simp [insertByPr]
  | cons x xs ih =>
    rcases List.pairwise_cons.mp hq with ⟨hx, hxs⟩
    by_cases h : c.2.priority.value > x.2.priority.value
    · rw [insertByPr, if_pos h]
      refine List.pairwise_cons.mpr ⟨?_, hq⟩
      intro y hy
      rcases List.mem_cons.mp hy with rfl | hy
      · exact Or.inl h
      · rcases hx y hy with hpr | ⟨heq, _⟩
        · exact Or.inl (lt_trans hpr h)
        · exact Or.inl (heq ▸ h)
    · rw [insertByPr, if_neg h]
      refine List.pairwise_cons.mpr ⟨?_, ?_⟩
      · intro y hy
        rcases (mem_insertByPr _ c xs y).mp hy with rfl | hy
        · rcases Nat.lt_or_ge x.2.priority.value y.2.priority.value with hlt | hge
          · exact absurd hlt (by simpa using h)
          · rcases Nat.eq_or_lt_of_le hge with heq | hlt
            · exact Or.inr ⟨heq.symm, htag x (by simp)⟩
            · exact Or.inl hlt
        · exact hx y hy
      · exact ih hxs (fun x hx => htag x (List.mem_cons_of_mem _ hx))

theorem tags_insertByPr_tagged (c : Nat × Command) (q : List (Nat × Command))
    (n : Nat) (hq : ∀ x ∈ q, x.1 < n) (hc : c.1 < n) :
    ∀ x ∈ insertByPr (fun p => p.2.priority.value) c q, x.1 < n := by
  intro x hx
  rcases (mem_insertByPr _ c q x).mp hx with rfl | hx
  · exact hc
  · exact hq x hx

/-- The queue obtained by submitting the given commands in order into an
initially empty queue, each via `_insert_by_priority`; every command is
tagged with its submission index (starting at `n`). -/
def submitAllFrom (n : Nat) : List Command → List (Nat × Command) → List (Nat × Command)
  | [], q => q
  | c :: cs, q => submitAllFrom (n + 1) cs (insertByPr (fun p => p.2.priority.value) (n, c) q)

/-- The queue after submitting `cmds` in order into an empty queue. -/
def submitAll (cmds : List Command) : List (Nat × Command) :=
  submitAllFrom 0 cmds []

theorem submitAllFrom_pairwise (cmds : List Command) :
    ∀ (n : Nat) (q : List (Nat × Command)), q.Pairwise StableRel →
      (∀ x ∈ q, x.1 < n) → (submitAllFrom n cmds q).Pairwise StableRel := by
  induction cmds with
  | nil => intro n q hq _; exact hq
  | cons c cs ih =>
    intro n q hq htag
    exact ih (n + 1)
      (insertByPr (fun p => p.2.priority.value) (n, c) q)
      (pairwise_insertByPr_tagged (n, c) q hq htag)
      (tags_insertByPr_tagged (n, c) q (n + 1)
        (fun x hx => Nat.lt_succ_of_lt (htag x hx)) (Nat.lt_succ_self n))

theorem submitAll_pairwise (cmds : List Command) :
    (submitAll cmds).Pairwise StableRel :=
  submitAllFrom_pairwise cmds 0 [] (List.Pairwise.nil) (by intro x hx; cases hx)

/-- The `Settings` fields used by `CommandQueue` (`config.py`):
`MAX_QUEUE_SIZE` defaults to 100. -/
structure Settings where
  maxQueueSize : Nat := 100
deriving DecidableEq, Repr

/-- The control point of the dispatcher `process_next_command`:
`idle` (the `processing` flag is `False`), `running t` (a command was
popped by `get_next_command` and the execute-versus-timeout race is in
flight; `processing` is `True`), and `timedWait t` (the execute task has
already resolved the command but the timeout task is also in the
completed set, so `timeout_command` is still to run before `processing`
is reset). -/
inductive Phase
  | idle
  | running (t : Nat)
  | timedWait (t : Nat)
deriving DecidableEq, Repr

/-- The mutable state of a `CommandQueue`.  Python `Command` objects are
held once in `store` (the object heap, in allocation order) and referred
to by their index ("token"), so that the aliasing between `self.queue`,
`self.current_command` and `self.command_history` in the source is
explicit: `pending` and `current` hold tokens, and `history` maps a
command id to a token (latest binding first, as Python dict assignment
overwrites). -/
structure QState where
  settings : Settings
  store : List Command
  pending : List Nat
  current : Option Nat
  phase : Phase
  history : List (String × Nat)
deriving DecidableEq, Repr

/-- Dereference a token in the store. -/
def QState.cmd? (s : QState) (t : Nat) : Option Command :=
  s.store[t]?

/-- The priority value used when inserting token `t` into the pending
list (`command.priority.value` in `_insert_by_priority`). -/
def tokenPr (store : List Command) (t : Nat) : Nat :=
  ((store[t]?.map (fun c => c.priority.value)).getD 0)

/-- In-place update of the Command object at index `t` of the heap,
modelling Python attribute assignment on the shared object. -/
def listModify {α : Type} (f : α → α) : Nat → List α → List α
  | _, [] => []
  | 0, x :: xs => f x :: xs
  | n + 1, x :: xs => x :: listModify f n xs

def QState.modifyCmd (s : QState) (t : Nat) (f : Command → Command) : QState :=
  { s with store := listModify f t s.store }

/-- Result of `CommandQueue.add_command`: the source raises a
"Command queue full" exception when `len(self.queue) >= MAX_QUEUE_SIZE`
(before any mutation), else enqueues and returns the generated id. -/
inductive AddResult
  | ok (id : String) (s : QState)
  | queueFull (s : QState)
deriving DecidableEq, Repr

/-- The shared enqueue body of `add_command` and `add_mqtt_command`: a
fresh `Command` (default `retry_count = 3`, status `PENDING`,
`attempts = 0`) is allocated, inserted into the pending sequence by
`_insert_by_priority`, and recorded in the history under its id. -/
def enqueueNew (s : QState) (cid ctype : String) (pr : CommandPriority) (tmo : Nat) :
    QState :=
  let c : Command := { id := cid, commandType := ctype, priority := pr, timeout := tmo }
  let t := s.store.length
  let store := s.store ++ [c]
  { s with
    store := store
    pending := insertByPr (tokenPr store) t s.pending
    history := (cid, t) :: s.history }

/-- Method `CommandQueue.add_command`.  The `uuid.uuid4()` id generation is
modelled by the caller-supplied `cid`. -/
def addCommand (s : QState) (cid ctype : String) (pr : CommandPriority) (tmo : Nat) :
    AddResult :=
  if s.pending.length ≥ s.settings.maxQueueSize then
    .queueFull s
  else
    .ok cid (enqueueNew s cid ctype pr tmo)

/-- Priority-string parsing of `add_mqtt_command`:
`CommandPriority[payload.get("priority", "normal").upper()]`, degrading
to `NORMAL` on `KeyError`. -/
def parsePriority (p : String) : CommandPriority :=
  if p.toUpper = "LOW" then .low
  else if p.toUpper = "NORMAL" then .normal
  else if p.toUpper = "HIGH" then .high
  else if p.toUpper = "CRITICAL" then .critical
  else .normal

/-- Method `CommandQueue.add_mqtt_command`.  When the queue is full the source
logs an error and returns the command id without raising and without
touching `queue` or `command_history`. -/
def addMqttCommand (s : QState) (cid ctype priorityStr : String) (tmo : Nat) :
    String × QState :=
  if s.pending.length ≥ s.settings.maxQueueSize then
    (cid, s)
  else
    (cid, enqueueNew s cid ctype (parsePriority priorityStr) tmo)

/-- The mutation `get_next_command` applies to the popped command:
status `PROCESSING` and `attempts += 1` (the `last_attempt` timestamp is
not modelled). -/
def procMark (c : Command) : Command :=
  { c with status := .processing, attempts := c.attempts + 1 }

/-- Method `CommandQueue.get_next_command`: pop the queue head, mark it via
`procMark` and publish it as the current command. -/
def getNextCommand (s : QState) : Option Nat × QState :=
  match s.pending with
  | [] => (none, s)
  | t :: rest =>
    let s1 := s.modifyCmd t procMark
    (some t, { s1 with pending := rest, current := some t })

/-- The mutation of `complete_command`: status `COMPLETED`, store the
result. -/
def completeMark (res : Nat) (c : Command) : Command :=
  { c with status := .completed, result := some res }

/-- Method `CommandQueue.complete_command`: mark completed, clear the current
command. -/
def completeCommand (s : QState) (t : Nat) (res : Nat) : QState :=
  { s.modifyCmd t (completeMark res) with current := none }

/-- The retry branch mutation of `fail_command`: record the error and
set the status back to `PENDING`. -/
def failRetryMark (err : String) (c : Command) : Command :=
  { c with error := some err, status := .pending }

/-- The terminal branch mutation of `fail_command`: record the error,
status `FAILED`. -/
def failTermMark (err : String) (c : Command) : Command :=
  { c with error := some err, status := .failed }

/-- The retry branch of `fail_command`: mark the command, re-insert it
by priority, clear the current command. -/
def failRetryState (s : QState) (t : Nat) (err : String) : QState :=
  let s1 := s.modifyCmd t (failRetryMark err)
  { s1 with pending := insertByPr (tokenPr s1.store) t s1.pending, current := none }

/-- The terminal branch of `fail_command`: mark it failed, clear the
current command. -/
def failTermState (s : QState) (t : Nat) (err : String) : QState :=
  { s.modifyCmd t (failTermMark err) with current := none }

/-- Method `CommandQueue.fail_command`: record the error; if
`attempts < retry_count` set the status back to `PENDING` and re-insert
by priority, else status `FAILED`; clear the current command. -/
def failCommand (s : QState) (t : Nat) (err : String) : QState :=
  match s.cmd? t with
  | none => s
  | some c =>
    if c.attempts < c.retryCount then failRetryState s t err
    else failTermState s t err

/-- The synthetic error message of `timeout_command`. -/
def timeoutMessage (n : Nat) : String :=
  "Command timed out after " ++ toString n ++ " seconds"

/-- The mutation of `timeout_command`: status `TIMEOUT`, synthetic error
citing the timeout value. -/
def timeoutMark (c : Command) : Command :=
  { c with status := .timeout, error := some (timeoutMessage c.timeout) }

/-- Method `CommandQueue.timeout_command`: mark timed out, clear the current
command.  The command is not re-inserted into the pending queue. -/
def timeoutCommand (s : QState) (t : Nat) : QState :=
  { s.modifyCmd t timeoutMark with current := none }

/-- The scan of `CommandQueue.cancel_command`: find the first pending
token whose command id matches, returning it and the remaining queue. -/
def cancelFrom (store : List Command) (cid : String) : List Nat → Option (Nat × List Nat)
  | [] => none
  | t :: rest =>
    if ((store[t]?.map (fun c => c.id)).getD "") = cid then
      some (t, rest)
    else
      match cancelFrom store cid rest with
      | none => none
      | some (u, rest') => some (u, t :: rest')

/-- The mutation applied by `cancel_command` and `clear_queue`. -/
def cancelMark (c : Command) : Command :=
  { c with status := .cancelled }

/-- Method `CommandQueue.cancel_command`: remove the first matching pending
command, marking it `CANCELLED`; a processing command is untouched. -/
def cancelCommand (s : QState) (cid : String) : Bool × QState :=
  match cancelFrom s.store cid s.pending with
  | none => (false, s)
  | some (t, pending') =>
    (true, { s.modifyCmd t cancelMark with pending := pending' })

/-- Method `CommandQueue.clear_queue`: mark every pending command `CANCELLED`
and empty the queue. -/
def clearQueue (s : QState) : QState :=
  { s with
    store := s.pending.foldl (fun st t => listModify cancelMark t st) s.store
    pending := [] }

/-- One atomic step of the queue.  Each constructor is one
lock-protected section of `command_queue.py`; the dispatcher
`process_next_command` contributes `dispatch` (the guarded
`get_next_command` plus setting the `processing` flag) and the
resolutions of the execute-versus-timeout race: the execute task
completing or failing the command (with `timeoutAlso = true` recording
that the timeout task landed in the `done` set of `asyncio.wait` in the
same tick, in which case the source subsequently also runs
`timeout_command` — the `lateTimeout` step), or the timeout task winning
alone. -/
inductive Step : QState → QState → Prop
  | add (s : QState) (cid ctype : String) (pr : CommandPriority) (tmo : Nat)
      (id' : String) (s' : QState)
      (h : addCommand s cid ctype pr tmo = .ok id' s') : Step s s'
  | addRejected (s : QState) (cid ctype : String) (pr : CommandPriority) (tmo : Nat)
      (s' : QState) (h : addCommand s cid ctype pr tmo = .queueFull s') : Step s s'
  | mqtt (s : QState) (cid ctype pstr : String) (tmo : Nat) :
      Step s (addMqttCommand s cid ctype pstr tmo).2
  | dispatch (s : QState) (t : Nat) (s' : QState) (hph : s.phase = .idle)
      (hpop : getNextCommand s = (some t, s')) :
      Step s { s' with phase := .running t }
  | execComplete (s : QState) (t res : Nat) (timeoutAlso : Bool)
      (hph : s.phase = .running t) :
      Step s { completeCommand s t res with
        phase := if timeoutAlso then .timedWait t else .idle }
  | execFail (s : QState) (t : Nat) (err : String) (timeoutAlso : Bool)
      (hph : s.phase = .running t) :
      Step s { failCommand s t err with
        phase := if timeoutAlso then .timedWait t else .idle }
  | execTimeout (s : QState) (t : Nat) (hph : s.phase = .running t) :
      Step s { timeoutCommand s t with phase := .idle }
  | lateTimeout (s : QState) (t : Nat) (hph : s.phase = .timedWait t) :
      Step s { timeoutCommand s t with phase := .idle }
  | cancel (s : QState) (cid : String) :
      Step s (cancelCommand s cid).2
  | clear (s : QState) :
      Step s (clearQueue s)

/-- The freshly constructed queue (`CommandQueue.__init__`). -/
def initState : QState :=
  { settings := {}, store := [], pending := [], current := none,
    phase := .idle, history := [] }

/-- The states the queue can reach from construction. -/
def Reachable (s : QState) : Prop :=
  Relation.ReflTransGen Step initState s

theorem length_listModify {α : Type} (f : α → α) (n : Nat) (l : List α) :
    (listModify f n l).length = l.length := by
  induction l generalizing n with
  | nil => cases n <;> simp [listModify]
  | cons x xs ih =>
    cases n with
    | zero => simp [listModify]
    | succ m => simp [listModify, ih]

theorem getElem?_listModify_self {α : Type} (f : α → α) (n : Nat) (l : List α) :
    (listModify f n l)[n]? = l[n]?.map f := by
  induction l generalizing n with
  | nil => cases n <;> simp [listModify]
  | cons x xs ih =>
    cases n with
    | zero => simp [listModify]
    | succ m => simpa [listModify] using ih m

theorem getElem?_listModify_ne {α : Type} (f : α → α) {m n : Nat} (l : List α)
    (h : m ≠ n) : (listModify f n l)[m]? = l[m]? := by
  induction l generalizing m n with
  | nil => cases n <;> simp [listModify]
  | cons x xs ih =>
    cases n with
    | zero =>
      cases m with
      | zero => exact absurd rfl h
      | succ k => simp [listModify]
    | succ n' =>
      cases m with
      | zero => simp [listModify]
      | succ k => simpa [listModify] using ih (fun hk => h (by omega))

theorem nodup_insertByPr {α : Type} (pr : α → Nat) (c : α) (q : List α)
    (hq : q.Nodup) (hc : c ∉ q) : (insertByPr pr c q).Nodup := by
  induction q with
  | nil => simp [insertByPr]
  | cons x xs ih =>
    rcases List.nodup_cons.mp hq with ⟨hx, hxs⟩
    by_cases h : pr c > pr x
    · rw [insertByPr, if_pos h]
      exact List.nodup_cons.mpr ⟨hc, hq⟩
    · rw [insertByPr, if_neg h]
      refine List.nodup_cons.mpr ⟨?_, ih hxs (fun hm => hc (List.mem_cons_of_mem _ hm))⟩
      intro hmem
      rcases (mem_insertByPr pr c xs x).mp hmem with rfl | hmem
      · exact hc (List.mem_cons_self x xs)
      · exact hx hmem

/-- The inductive invariant of the queue state machine. -/
structure Inv (s : QState) : Prop where
  procPhase : ∀ t c, s.cmd? t = some c → c.status = .processing → s.phase = .running t
  runNotPending : ∀ t, s.phase = .running t → t ∉ s.pending
  phValid : ∀ t, (s.phase = .running t ∨ s.phase = .timedWait t) → t < s.store.length
  pendAttempts : ∀ t, t ∈ s.pending → ∃ c, s.cmd? t = some c ∧ c.attempts < c.retryCount
  attemptsLe : ∀ t c, s.cmd? t = some c → c.attempts ≤ c.retryCount
  failedEq : ∀ t c, s.cmd? t = some c → c.status = .failed → c.attempts = c.retryCount
  pendNodup : s.pending.Nodup
  pendValid : ∀ t, t ∈ s.pending → t < s.store.length

theorem initInv : Inv initState := by
  refine ⟨?_, ?_, ?_, ?_, ?_, ?_, ?_, ?_⟩ <;>
    simp [initState, QState.cmd?]

theorem inv_enqueueNew {s : QState} (hs : Inv s) (cid ctype : String)
    (pr : CommandPriority) (tmo : Nat) : Inv (enqueueNew s cid ctype pr tmo) := by
  set c : Command := { id := cid, commandType := ctype, priority := pr, timeout := tmo }
    with hc
  have hlen : ∀ u, u < s.store.length → (s.store ++ [c])[u]? = s.store[u]? :=
    fun u hu => List.getElem?_append_left hu
  have hnew : (s.store ++ [c])[s.store.length]? = some c :=
    List.getElem?_concat_length s.store c
  have hcmd : ∀ u (d : Command), (s.store ++ [c])[u]? = some d →
      (u < s.store.length ∧ s.store[u]? = some d) ∨ (u = s.store.length ∧ d = c) := by
    intro u d hd
    rcases Nat.lt_trichotomy u s.store.length with hu | hu | hu
    · exact Or.inl ⟨hu, (hlen u hu) ▸ hd⟩
    · subst hu
      rw [hnew] at hd
      exact Or.inr ⟨rfl, (Option.some.injEq _ _).mp hd.symm⟩
    · have : (s.store ++ [c])[u]? = none :=
        List.getElem?_eq_none (by simpa using hu)
      rw [this] at hd
      cases hd
  have hmem : ∀ u, u ∈ (enqueueNew s cid ctype pr tmo).pending →
      u = s.store.length ∨ u ∈ s.pending := by
    intro u hu
    exact (mem_insertByPr _ _ _ u).mp hu
  refine ⟨?_, ?_, ?_, ?_, ?_, ?_, ?_, ?_⟩
  · intro t d hd hst
    rcases hcmd t d hd with ⟨_, hold⟩ | ⟨_, rfl⟩
    · exact hs.procPhase t d hold hst
    · cases hst
  · intro t hph hmem'
    have hph' : s.phase = .running t := hph
    rcases hmem t hmem' with rfl | hmem'
    · exact absurd (hs.phValid _ (Or.inl hph')) (lt_irrefl _)
    · exact hs.runNotPending t hph' hmem'
  · intro t hph
    have hph' : s.phase = .running t ∨ s.phase = .timedWait t := hph
    have := hs.phValid t hph'
    simp only [enqueueNew, List.length_append, List.length_singleton]
    omega
  · intro t ht
    rcases hmem t ht with rfl | ht
    · refine ⟨c, ?_, by simp [hc]⟩
      show (s.store ++ [c])[s.store.length]? = some c
      exact hnew
    · obtain ⟨d, hd, hlt⟩ := hs.pendAttempts t ht
      refine ⟨d, ?_, hlt⟩
      show (s.store ++ [c])[t]? = some d
      rw [hlen t (hs.pendValid t ht)]
      exact hd
  · intro t d hd
    rcases hcmd t d hd with ⟨_, hold⟩ | ⟨_, rfl⟩
    · exact hs.attemptsLe t d hold
    · simp [hc]
  · intro t d hd hst
    rcases hcmd t d hd with ⟨_, hold⟩ | ⟨_, rfl⟩
    · exact hs.failedEq t d hold hst
    · cases hst
  · exact nodup_insertByPr _ _ _ hs.pendNodup
      (fun hm => absurd (hs.pendValid _ hm) (lt_irrefl _))
  · intro t ht
    rcases hmem t ht with rfl | ht
    · simp [enqueueNew]
    · have := hs.pendValid t ht
      simp only [enqueueNew, List.length_append, List.length_singleton]
      omega

theorem getNextCommand_some {s : QState} {t : Nat} {s1 : QState}
    (h : getNextCommand s = (some t, s1)) :
    ∃ rest, s.pending = t :: rest ∧
      s1 = { s.modifyCmd t procMark with pending := rest, current := some t } := by
  cases hp : s.pending with
  | nil =>
    rw [getNextCommand, hp] at h
    cases h
  | cons t0 rest =>
    rw [getNextCommand, hp] at h
    obtain ⟨h1, h2⟩ := Prod.mk.injEq .. |>.mp h
    cases h1
    exact ⟨rest, rfl, h2.symm⟩

theorem inv_dispatch {s : QState} (hs : Inv s) {t : Nat} (rest : List Nat)
    (hph : s.phase = .idle) (hp : s.pending = t :: rest) :
    Inv { settings := s.settings, store := listModify procMark t s.store,
          pending := rest, current := some t, phase := .running t,
          history := s.history } := by
  have htmem : t ∈ s.pending := hp ▸ List.mem_cons_self t rest
  have hnd : (t :: rest).Nodup := hp ▸ hs.pendNodup
  have htrest : t ∉ rest := (List.nodup_cons.mp hnd).1
  obtain ⟨c0, hc0, hc0lt⟩ := hs.pendAttempts t htmem
  have hc0' : s.store[t]? = some c0 := hc0
  refine ⟨?_, ?_, ?_, ?_, ?_, ?_, ?_, ?_⟩
  · intro u d hd hst
    have hd' : (listModify procMark t s.store)[u]? = some d := hd
    by_cases hut : u = t
    · subst hut; rfl
    · rw [getElem?_listModify_ne _ _ hut] at hd'
      have := hs.procPhase u d hd' hst
      rw [hph] at this
      cases this
  · intro u hu
    cases hu
    exact htrest
  · intro u hu
    have hut : u = t := by
      rcases hu with hu | hu
      · cases hu
        rfl
      · cases hu
    subst hut
    show u < (listModify procMark u s.store).length
    rw [length_listModify]
    exact hs.pendValid u htmem
  · intro u hu
    have hune : u ≠ t := fun h => htrest (h ▸ hu)
    obtain ⟨d, hd, hlt⟩ := hs.pendAttempts u (hp ▸ List.mem_cons_of_mem t hu)
    refine ⟨d, ?_, hlt⟩
    show (listModify procMark t s.store)[u]? = some d
    rw [getElem?_listModify_ne _ _ hune]
    exact hd
  · intro u d hd
    have hd' : (listModify procMark t s.store)[u]? = some d := hd
    by_cases hut : u = t
    · subst hut
      rw [getElem?_listModify_self, hc0'] at hd'
      obtain rfl := (Option.some.injEq _ _).mp hd'.symm
      show c0.attempts + 1 ≤ c0.retryCount
      exact hc0lt
    · rw [getElem?_listModify_ne _ _ hut] at hd'
      exact hs.attemptsLe u d hd'
  · intro u d hd hst
    have hd' : (listModify procMark t s.store)[u]? = some d := hd
    by_cases hut : u = t
    · subst hut
      rw [getElem?_listModify_self, hc0'] at hd'
      obtain rfl := (Option.some.injEq _ _).mp hd'.symm
      cases hst
    · rw [getElem?_listModify_ne _ _ hut] at hd'
      exact hs.failedEq u d hd' hst
  · exact (List.nodup_cons.mp hnd).2
  · intro u hu
    show u < (listModify procMark t s.store).length
    rw [length_listModify]
    exact hs.pendValid u (hp ▸ List.mem_cons_of_mem t hu)

theorem inv_complete {s : QState} (hs : Inv s) {t : Nat} (res : Nat)
    (hph : s.phase = .running t) (ph : Phase)
    (hpi : ph = Phase.timedWait t ∨ ph = Phase.idle) :
    Inv { completeCommand s t res with phase := ph } := by
  have htlen : t < s.store.length := hs.phValid t (Or.inl hph)
  have htnp : t ∉ s.pending := hs.runNotPending t hph
  refine ⟨?_, ?_, ?_, ?_, ?_, ?_, ?_, ?_⟩
  · intro u d hd hst
    have hd' : (listModify (completeMark res) t s.store)[u]? = some d := hd
    by_cases hut : u = t
    · subst hut
      rw [getElem?_listModify_self, List.getElem?_eq_getElem htlen] at hd'
      obtain rfl := (Option.some.injEq _ _).mp hd'.symm
      cases hst
    · rw [getElem?_listModify_ne _ _ hut] at hd'
      have := hs.procPhase u d hd' hst
      rw [hph] at this
      injection this with h'
      exact absurd h'.symm hut
  · intro u hu
    rcases hpi with rfl | rfl <;> cases hu
  · intro u hu
    show u < (listModify (completeMark res) t s.store).length
    rw [length_listModify]
    rcases hpi with rfl | rfl
    · rcases hu with hu | hu
      · cases hu
      · cases hu
        exact htlen
    · rcases hu with hu | hu <;> cases hu
  · intro u hu
    have hune : u ≠ t := fun h => htnp (h ▸ hu)
    obtain ⟨d, hd, hlt⟩ := hs.pendAttempts u hu
    refine ⟨d, ?_, hlt⟩
    show (listModify (completeMark res) t s.store)[u]? = some d
    rw [getElem?_listModify_ne _ _ hune]
    exact hd
  · intro u d hd
    have hd' : (listModify (completeMark res) t s.store)[u]? = some d := hd
    by_cases hut : u = t
    · subst hut
      obtain ⟨c0, hc0⟩ : ∃ c0, s.store[u]? = some c0 :=
        ⟨_, List.getElem?_eq_getElem htlen⟩
      rw [getElem?_listModify_self, hc0] at hd'
      obtain rfl := (Option.some.injEq _ _).mp hd'.symm
      exact hs.attemptsLe u c0 hc0
    · rw [getElem?_listModify_ne _ _ hut] at hd'
      exact hs.attemptsLe u d hd'
  · intro u d hd hst
    have hd' : (listModify (completeMark res) t s.store)[u]? = some d := hd
    by_cases hut : u = t
    · subst hut
      rw [getElem?_listModify_self, List.getElem?_eq_getElem htlen] at hd'
      obtain rfl := (Option.some.injEq _ _).mp hd'.symm
      cases hst
    · rw [getElem?_listModify_ne _ _ hut] at hd'
      exact hs.failedEq u d hd' hst
  · exact hs.pendNodup
  · intro u hu
    show u < (listModify (completeMark res) t s.store).length
    rw [length_listModify]
    exact hs.pendValid u hu

theorem inv_timeout {s : QState} (hs : Inv s) {t : Nat}
    (hph : s.phase = .running t ∨ s.phase = .timedWait t) :
    Inv { timeoutCommand s t with phase := .idle } := by
  have htlen : t < s.store.length := hs.phValid t hph
  refine ⟨?_, ?_, ?_, ?_, ?_, ?_, ?_, ?_⟩
  · intro u d hd hst
    have hd' : (listModify timeoutMark t s.store)[u]? = some d := hd
    by_cases hut : u = t
    · subst hut
      rw [getElem?_listModify_self, List.getElem?_eq_getElem htlen] at hd'
      obtain rfl := (Option.some.injEq _ _).mp hd'.symm
      cases hst
    · rw [getElem?_listModify_ne _ _ hut] at hd'
      have := hs.procPhase u d hd' hst
      rcases hph with hph | hph <;> rw [hph] at this
      · injection this with h'
        exact absurd h'.symm hut
      · cases this
  · intro u hu
    cases hu
  · intro u hu
    rcases hu with hu | hu <;> cases hu
  · intro u hu
    obtain ⟨d, hd, hlt⟩ := hs.pendAttempts u hu
    by_cases hut : u = t
    · subst hut
      have hd2 : s.store[u]? = some d := hd
      refine ⟨timeoutMark d, ?_, hlt⟩
      show (listModify timeoutMark u s.store)[u]? = some (timeoutMark d)
      rw [getElem?_listModify_self, hd2]
      rfl
    · refine ⟨d, ?_, hlt⟩
      show (listModify timeoutMark t s.store)[u]? = some d
      rw [getElem?_listModify_ne _ _ hut]
      exact hd
  · intro u d hd
    have hd' : (listModify timeoutMark t s.store)[u]? = some d := hd
    by_cases hut : u = t
    · subst hut
      obtain ⟨c0, hc0⟩ : ∃ c0, s.store[u]? = some c0 :=
        ⟨_, List.getElem?_eq_getElem htlen⟩
      rw [getElem?_listModify_self, hc0] at hd'
      obtain rfl := (Option.some.injEq _ _).mp hd'.symm
      exact hs.attemptsLe u c0 hc0
    · rw [getElem?_listModify_ne _ _ hut] at hd'
      exact hs.attemptsLe u d hd'
  · intro u d hd hst
    have hd' : (listModify timeoutMark t s.store)[u]? = some d := hd
    by_cases hut : u = t
    · subst hut
      rw [getElem?_listModify_self, List.getElem?_eq_getElem htlen] at hd'
      obtain rfl := (Option.some.injEq _ _).mp hd'.symm
      cases hst
    · rw [getElem?_listModify_ne _ _ hut] at hd'
      exact hs.failedEq u d hd' hst
  · exact hs.pendNodup
  · intro u hu
    show u < (listModify timeoutMark t s.store).length
    rw [length_listModify]
    exact hs.pendValid u hu

theorem failCommand_retry {s : QState} {t : Nat} {err : String} {c : Command}
    (hc : s.cmd? t = some c) (hlt : c.attempts < c.retryCount) :
    failCommand s t err = failRetryState s t err := by
  unfold failCommand
  rw [hc]
  show (if c.attempts < c.retryCount then failRetryState s t err
    else failTermState s t err) = failRetryState s t err
  rw [if_pos hlt]

theorem failCommand_term {s : QState} {t : Nat} {err : String} {c : Command}
    (hc : s.cmd? t = some c) (hlt : ¬ c.attempts < c.retryCount) :
    failCommand s t err = failTermState s t err := by
  unfold failCommand
  rw [hc]
  show (if c.attempts < c.retryCount then failRetryState s t err
    else failTermState s t err) = failTermState s t err
  rw [if_neg hlt]

theorem inv_failRetry {s : QState} (hs : Inv s) {t : Nat} (err : String) {c : Command}
    (hph : s.phase = .running t) (hc : s.cmd? t = some c)
    (hlt : c.attempts < c.retryCount) (ph : Phase)
    (hpi : ph = Phase.timedWait t ∨ ph = Phase.idle) :
    Inv { failRetryState s t err with phase := ph } := by
  have htlen : t < s.store.length := hs.phValid t (Or.inl hph)
  have htnp : t ∉ s.pending := hs.runNotPending t hph
  have hc' : s.store[t]? = some c := hc
  refine ⟨?_, ?_, ?_, ?_, ?_, ?_, ?_, ?_⟩
  · intro u d hd hst
    have hd' : (listModify (failRetryMark err) t s.store)[u]? = some d := hd
    by_cases hut : u = t
    · subst hut
      rw [getElem?_listModify_self, hc'] at hd'
      obtain rfl := (Option.some.injEq _ _).mp hd'.symm
      cases hst
    · rw [getElem?_listModify_ne _ _ hut] at hd'
      have := hs.procPhase u d hd' hst
      rw [hph] at this
      injection this with h'
      exact absurd h'.symm hut
  · intro u hu
    rcases hpi with rfl | rfl <;> cases hu
  · intro u hu
    show u < (listModify (failRetryMark err) t s.store).length
    rw [length_listModify]
    rcases hpi with rfl | rfl
    · rcases hu with hu | hu
      · cases hu
      · cases hu
        exact htlen
    · rcases hu with hu | hu <;> cases hu
  · intro u hu
    have hu' : u = t ∨ u ∈ s.pending := (mem_insertByPr _ _ _ u).mp hu
    rcases hu' with rfl | hu'
    · refine ⟨failRetryMark err c, ?_, hlt⟩
      show (listModify (failRetryMark err) u s.store)[u]? = some (failRetryMark err c)
      rw [getElem?_listModify_self, hc']
      rfl
    · have hune : u ≠ t := fun h => htnp (h ▸ hu')
      obtain ⟨d, hd, hdlt⟩ := hs.pendAttempts u hu'
      refine ⟨d, ?_, hdlt⟩
      show (listModify (failRetryMark err) t s.store)[u]? = some d
      rw [getElem?_listModify_ne _ _ hune]
      exact hd
  · intro u d hd
    have hd' : (listModify (failRetryMark err) t s.store)[u]? = some d := hd
    by_cases hut : u = t
    · subst hut
      rw [getElem?_listModify_self, hc'] at hd'
      obtain rfl := (Option.some.injEq _ _).mp hd'.symm
      exact hs.attemptsLe u c hc
    · rw [getElem?_listModify_ne _ _ hut] at hd'
      exact hs.attemptsLe u d hd'
  · intro u d hd hst
    have hd' : (listModify (failRetryMark err) t s.store)[u]? = some d := hd
    by_cases hut : u = t
    · subst hut
      rw [getElem?_listModify_self, hc'] at hd'
      obtain rfl := (Option.some.injEq _ _).mp hd'.symm
      cases hst
    · rw [getElem?_listModify_ne _ _ hut] at hd'
      exact hs.failedEq u d hd' hst
  · exact nodup_insertByPr _ _ _ hs.pendNodup htnp
  · intro u hu
    have hu' : u = t ∨ u ∈ s.pending := (mem_insertByPr _ _ _ u).mp hu
    show u < (listModify (failRetryMark err) t s.store).length
    rw [length_listModify]
    rcases hu' with rfl | hu'
    · exact htlen
    · exact hs.pendValid u hu'

theorem inv_failTerm {s : QState} (hs : Inv s) {t : Nat} (err : String) {c : Command}
    (hph : s.phase = .running t) (hc : s.cmd? t = some c)
    (hlt : ¬ c.attempts < c.retryCount) (ph : Phase)
    (hpi : ph = Phase.timedWait t ∨ ph = Phase.idle) :
    Inv { failTermState s t err with phase := ph } := by
  have htlen : t < s.store.length := hs.phValid t (Or.inl hph)
  have htnp : t ∉ s.pending := hs.runNotPending t hph
  have hc' : s.store[t]? = some c := hc
  refine ⟨?_, ?_, ?_, ?_, ?_, ?_, ?_, ?_⟩
  · intro u d hd hst
    have hd' : (listModify (failTermMark err) t s.store)[u]? = some d := hd
    by_cases hut : u = t
    · subst hut
      rw [getElem?_listModify_self, hc'] at hd'
      obtain rfl := (Option.some.injEq _ _).mp hd'.symm
      cases hst
    · rw [getElem?_listModify_ne _ _ hut] at hd'
      have := hs.procPhase u d hd' hst
      rw [hph] at this
      injection this with h'
      exact absurd h'.symm hut
  · intro u hu
    rcases hpi with rfl | rfl <;> cases hu
  · intro u hu
    show u < (listModify (failTermMark err) t s.store).length
    rw [length_listModify]
    rcases hpi with rfl | rfl
    · rcases hu with hu | hu
      · cases hu
      · cases hu
        exact htlen
    · rcases hu with hu | hu <;> cases hu
  · intro u hu
    have hune : u ≠ t := fun h => htnp (h ▸ hu)
    obtain ⟨d, hd, hdlt⟩ := hs.pendAttempts u hu
    refine ⟨d, ?_, hdlt⟩
    show (listModify (failTermMark err) t s.store)[u]? = some d
    rw [getElem?_listModify_ne _ _ hune]
    exact hd
  · intro u d hd
    have hd' : (listModify (failTermMark err) t s.store)[u]? = some d := hd
    by_cases hut : u = t
    · subst hut
      rw [getElem?_listModify_self, hc'] at hd'
      obtain rfl := (Option.some.injEq _ _).mp hd'.symm
      exact hs.attemptsLe u c hc
    · rw [getElem?_listModify_ne _ _ hut] at hd'
      exact hs.attemptsLe u d hd'
  · intro u d hd _
    have hd' : (listModify (failTermMark err) t s.store)[u]? = some d := hd
    by_cases hut : u = t
    · subst hut
      rw [getElem?_listModify_self, hc'] at hd'
      obtain rfl := (Option.some.injEq _ _).mp hd'.symm
      have h1 := hs.attemptsLe u c hc
      show c.attempts = c.retryCount
      omega
    · rw [getElem?_listModify_ne _ _ hut] at hd'
      have hst' : d.status = .failed := by assumption
      exact hs.failedEq u d hd' hst'
  · exact hs.pendNodup
  · intro u hu
    show u < (listModify (failTermMark err) t s.store).length
    rw [length_listModify]
    exact hs.pendValid u hu

theorem inv_fail {s : QState} (hs : Inv s) {t : Nat} (err : String)
    (hph : s.phase = .running t) (ph : Phase)
    (hpi : ph = Phase.timedWait t ∨ ph = Phase.idle) :
    Inv { failCommand s t err with phase := ph } := by
  have htlen : t < s.store.length := hs.phValid t (Or.inl hph)
  obtain ⟨c, hc⟩ : ∃ c, s.cmd? t = some c :=
    ⟨_, List.getElem?_eq_getElem htlen⟩
  by_cases hlt : c.attempts < c.retryCount
  · rw [failCommand_retry hc hlt]
    exact inv_failRetry hs err hph hc hlt ph hpi
  · rw [failCommand_term hc hlt]
    exact inv_failTerm hs err hph hc hlt ph hpi

theorem cancelFrom_split {store : List Command} {cid : String} :
    ∀ {l : List Nat} {t : Nat} {l' : List Nat},
      cancelFrom store cid l = some (t, l') →
      ∃ l1 l2, l = l1 ++ t :: l2 ∧ l' = l1 ++ l2 := by
  intro l
  induction l with
  | nil => intro t l' h; cases h
  | cons x xs ih =>
    intro t l' h
    by_cases hid : ((store[x]?.map (fun c => c.id)).getD "") = cid
    · rw [cancelFrom, if_pos hid] at h
      obtain ⟨h1, h2⟩ := Prod.mk.injEq .. |>.mp ((Option.some.injEq _ _).mp h)
      subst h1
      subst h2
      exact ⟨[], xs, rfl, rfl⟩
    · rw [cancelFrom, if_neg hid] at h
      cases hrec : cancelFrom store cid xs with
      | none =>
        rw [hrec] at h
        cases h
      | some p =>
        obtain ⟨u, rest⟩ := p
        rw [hrec] at h
        obtain ⟨h1, h2⟩ := Prod.mk.injEq .. |>.mp ((Option.some.injEq _ _).mp h)
        subst h1
        subst h2
        obtain ⟨l1, l2, he1, he2⟩ := ih hrec
        exact ⟨x :: l1, l2, by rw [List.cons_append, he1], by rw [List.cons_append, he2]⟩

theorem cancelCommand_none {s : QState} {cid : String}
    (h : cancelFrom s.store cid s.pending = none) :
    (cancelCommand s cid).2 = s := by
  unfold cancelCommand
  rw [h]

theorem cancelCommand_some {s : QState} {cid : String} {t : Nat} {p' : List Nat}
    (h : cancelFrom s.store cid s.pending = some (t, p')) :
    (cancelCommand s cid).2 = { s.modifyCmd t cancelMark with pending := p' } := by
  unfold cancelCommand
  rw [h]

theorem inv_cancel {s : QState} (hs : Inv s) {cid : String} {t : Nat} {p' : List Nat}
    (hcf : cancelFrom s.store cid s.pending = some (t, p')) :
    Inv { s.modifyCmd t cancelMark with pending := p' } := by
  obtain ⟨l1, l2, hp, hp'⟩ := cancelFrom_split hcf
  have htmem : t ∈ s.pending := by
    rw [hp]
    exact List.mem_append_right l1 (List.mem_cons_self t l2)
  have htlen : t < s.store.length := hs.pendValid t htmem
  have hnd : (l1 ++ t :: l2).Nodup := hp ▸ hs.pendNodup
  obtain ⟨hnd1, hnd2, hdisj⟩ := List.nodup_append.mp hnd
  have htl1 : t ∉ l1 := fun hx => hdisj hx (List.mem_cons_self t l2)
  have htl2 : t ∉ l2 := (List.nodup_cons.mp hnd2).1
  have hsub : ∀ u, u ∈ p' → u ∈ s.pending := by
    intro u hu
    rw [hp'] at hu
    rw [hp]
    rcases List.mem_append.mp hu with hu | hu
    · exact List.mem_append_left _ hu
    · exact List.mem_append_right _ (List.mem_cons_of_mem t hu)
  have htp' : t ∉ p' := by
    rw [hp']
    intro hx
    rcases List.mem_append.mp hx with hx | hx
    · exact htl1 hx
    · exact htl2 hx
  refine ⟨?_, ?_, ?_, ?_, ?_, ?_, ?_, ?_⟩
  · intro u d hd hst
    have hd' : (listModify cancelMark t s.store)[u]? = some d := hd
    by_cases hut : u = t
    · subst hut
      obtain ⟨c0, hc0⟩ : ∃ c0, s.store[u]? = some c0 :=
        ⟨_, List.getElem?_eq_getElem htlen⟩
      rw [getElem?_listModify_self, hc0] at hd'
      obtain rfl := (Option.some.injEq _ _).mp hd'.symm
      cases hst
    · rw [getElem?_listModify_ne _ _ hut] at hd'
      exact hs.procPhase u d hd' hst
  · intro u hph
    have hph' : s.phase = .running u := hph
    exact fun hu => hs.runNotPending u hph' (hsub u hu)
  · intro u hph
    have hph' : s.phase = .running u ∨ s.phase = .timedWait u := hph
    show u < (listModify cancelMark t s.store).length
    rw [length_listModify]
    exact hs.phValid u hph'
  · intro u hu
    have hune : u ≠ t := fun h => htp' (h ▸ hu)
    obtain ⟨d, hd, hdlt⟩ := hs.pendAttempts u (hsub u hu)
    refine ⟨d, ?_, hdlt⟩
    show (listModify cancelMark t s.store)[u]? = some d
    rw [getElem?_listModify_ne _ _ hune]
    exact hd
  · intro u d hd
    have hd' : (listModify cancelMark t s.store)[u]? = some d := hd
    by_cases hut : u = t
    · subst hut
      obtain ⟨c0, hc0⟩ : ∃ c0, s.store[u]? = some c0 :=
        ⟨_, List.getElem?_eq_getElem htlen⟩
      rw [getElem?_listModify_self, hc0] at hd'
      obtain rfl := (Option.some.injEq _ _).mp hd'.symm
      exact hs.attemptsLe u c0 hc0
    · rw [getElem?_listModify_ne _ _ hut] at hd'
      exact hs.attemptsLe u d hd'
  · intro u d hd hst
    have hd' : (listModify cancelMark t s.store)[u]? = some d := hd
    by_cases hut : u = t
    · subst hut
      obtain ⟨c0, hc0⟩ : ∃ c0, s.store[u]? = some c0 :=
        ⟨_, List.getElem?_eq_getElem htlen⟩
      rw [getElem?_listModify_self, hc0] at hd'
      obtain rfl := (Option.some.injEq _ _).mp hd'.symm
      cases hst
    · rw [getElem?_listModify_ne _ _ hut] at hd'
      exact hs.failedEq u d hd' hst
  · show p'.Nodup
    rw [hp']
    exact List.nodup_append.mpr
      ⟨hnd1, (List.nodup_cons.mp hnd2).2,
        fun _ ha hb => hdisj ha (List.mem_cons_of_mem t hb)⟩
  · intro u hu
    show u < (listModify cancelMark t s.store).length
    rw [length_listModify]
    exact hs.pendValid u (hsub u hu)

theorem length_foldl_cancel (toks : List Nat) (l : List Command) :
    (toks.foldl (fun st t => listModify cancelMark t st) l).length = l.length := by
  induction toks generalizing l with
  | nil => rfl
  | cons t ts ih =>
    show (ts.foldl _ (listModify cancelMark t l)).length = l.length
    rw [ih, length_listModify]

theorem getElem?_foldl_cancel_not_mem {toks : List Nat} {u : Nat} (l : List Command)
    (hu : u ∉ toks) :
    (toks.foldl (fun st t => listModify cancelMark t st) l)[u]? = l[u]? := by
  induction toks generalizing l with
  | nil => rfl
  | cons t ts ih =>
    have hne : u ≠ t := fun h => hu (h ▸ List.mem_cons_self t ts)
    have hts : u ∉ ts := fun h => hu (List.mem_cons_of_mem t h)
    show (ts.foldl _ (listModify cancelMark t l))[u]? = l[u]?
    rw [ih _ hts, getElem?_listModify_ne _ _ hne]

theorem getElem?_foldl_cancel_mem {toks : List Nat} {u : Nat} (l : List Command)
    (hu : u ∈ toks) :
    (toks.foldl (fun st t => listModify cancelMark t st) l)[u]? =
      l[u]?.map cancelMark := by
  induction toks generalizing l with
  | nil => cases hu
  | cons t ts ih =>
    show (ts.foldl _ (listModify cancelMark t l))[u]? = l[u]?.map cancelMark
    by_cases hts : u ∈ ts
    · rw [ih _ hts]
      by_cases hut : u = t
      · subst hut
        rw [getElem?_listModify_self, Option.map_map]
        cases l[u]? with
        | none => rfl
        | some c => rfl
      · rw [getElem?_listModify_ne _ _ hut]
    · have hut : u = t := by
        rcases List.mem_cons.mp hu with h | h
        · exact h
        · exact absurd h hts
      subst hut
      rw [getElem?_foldl_cancel_not_mem _ hts, getElem?_listModify_self]

theorem inv_clear {s : QState} (hs : Inv s) : Inv (clearQueue s) := by
  refine ⟨?_, ?_, ?_, ?_, ?_, ?_, ?_, ?_⟩
  · intro u d hd hst
    have hd' : (s.pending.foldl (fun st t => listModify cancelMark t st) s.store)[u]? =
        some d := hd
    by_cases hu : u ∈ s.pending
    · rw [getElem?_foldl_cancel_mem _ hu] at hd'
      obtain ⟨c0, hc0⟩ : ∃ c0, s.store[u]? = some c0 :=
        ⟨_, List.getElem?_eq_getElem (hs.pendValid u hu)⟩
      rw [hc0] at hd'
      obtain rfl := (Option.some.injEq _ _).mp hd'.symm
      cases hst
    · rw [getElem?_foldl_cancel_not_mem _ hu] at hd'
      exact hs.procPhase u d hd' hst
  · intro u _ hu
    cases hu
  · intro u hph
    have hph' : s.phase = .running u ∨ s.phase = .timedWait u := hph
    show u < (s.pending.foldl (fun st t => listModify cancelMark t st) s.store).length
    rw [length_foldl_cancel]
    exact hs.phValid u hph'
  · intro u hu
    cases hu
  · intro u d hd
    have hd' : (s.pending.foldl (fun st t => listModify cancelMark t st) s.store)[u]? =
        some d := hd
    by_cases hu : u ∈ s.pending
    · rw [getElem?_foldl_cancel_mem _ hu] at hd'
      obtain ⟨c0, hc0⟩ : ∃ c0, s.store[u]? = some c0 :=
        ⟨_, List.getElem?_eq_getElem (hs.pendValid u hu)⟩
      rw [hc0] at hd'
      obtain rfl := (Option.some.injEq _ _).mp hd'.symm
      exact hs.attemptsLe u c0 hc0
    · rw [getElem?_foldl_cancel_not_mem _ hu] at hd'
      exact hs.attemptsLe u d hd'
  · intro u d hd hst
    have hd' : (s.pending.foldl (fun st t => listModify cancelMark t st) s.store)[u]? =
        some d := hd
    by_cases hu : u ∈ s.pending
    · rw [getElem?_foldl_cancel_mem _ hu] at hd'
      obtain ⟨c0, hc0⟩ : ∃ c0, s.store[u]? = some c0 :=
        ⟨_, List.getElem?_eq_getElem (hs.pendValid u hu)⟩
      rw [hc0] at hd'
      obtain rfl := (Option.some.injEq _ _).mp hd'.symm
      cases hst
    · rw [getElem?_foldl_cancel_not_mem _ hu] at hd'
      exact hs.failedEq u d hd' hst
  · exact List.nodup_nil
  · intro u hu
    cases hu

theorem addCommand_ok_eq {s : QState} {cid ctype : String} {pr : CommandPriority}
    {tmo : Nat} {id' : String} {s' : QState}
    (h : addCommand s cid ctype pr tmo = .ok id' s') :
    s' = enqueueNew s cid ctype pr tmo := by
  unfold addCommand at h
  split at h
  · cases h
  · obtain ⟨_, h2⟩ := AddResult.ok.injEq .. |>.mp h
    exact h2.symm

theorem addCommand_full_eq {s : QState} {cid ctype : String} {pr : CommandPriority}
    {tmo : Nat} {s' : QState}
    (h : addCommand s cid ctype pr tmo = .queueFull s') : s' = s := by
  unfold addCommand at h
  split at h
  · exact (AddResult.queueFull.injEq .. |>.mp h).symm
  · cases h

theorem addMqtt_state {s : QState} (cid ctype pstr : String) (tmo : Nat) :
    (addMqttCommand s cid ctype pstr tmo).2 = s ∨
      (addMqttCommand s cid ctype pstr tmo).2 =
        enqueueNew s cid ctype (parsePriority pstr) tmo := by
  unfold addMqttCommand
  split
  · exact Or.inl rfl
  · exact Or.inr rfl

/-- Every step of the queue preserves the invariant. -/
theorem stepInv {s s' : QState} (hs : Inv s) (h : Step s s') : Inv s' := by
  cases h with
  | add cid ctype pr tmo id' s' h =>
    rw [addCommand_ok_eq h]
    exact inv_enqueueNew hs cid ctype pr tmo
  | addRejected cid ctype pr tmo s' h =>
    rw [addCommand_full_eq h]
    exact hs
  | mqtt cid ctype pstr tmo =>
    rcases addMqtt_state (s := s) cid ctype pstr tmo with h | h
    · rw [h]; exact hs
    · rw [h]; exact inv_enqueueNew hs cid ctype (parsePriority pstr) tmo
  | dispatch t s1 hph hpop =>
    obtain ⟨rest, hp, rfl⟩ := getNextCommand_some hpop
    exact inv_dispatch hs rest hph hp
  | execComplete t res timeoutAlso hph =>
    cases timeoutAlso with
    | true => exact inv_complete hs res hph _ (Or.inl (by rfl))
    | false => exact inv_complete hs res hph _ (Or.inr (by rfl))
  | execFail t err timeoutAlso hph =>
    cases timeoutAlso with
    | true => exact inv_fail hs err hph _ (Or.inl (by rfl))
    | false => exact inv_fail hs err hph _ (Or.inr (by rfl))
  | execTimeout t hph =>
    exact inv_timeout hs (Or.inl hph)
  | lateTimeout t hph =>
    exact inv_timeout hs (Or.inr hph)
  | cancel cid =>
    cases hcf : cancelFrom s.store cid s.pending with
    | none => rw [cancelCommand_none hcf]; exact hs
    | some p =>
      obtain ⟨t, p'⟩ := p
      rw [cancelCommand_some hcf]
      exact inv_cancel hs hcf
  | clear =>
    exact inv_clear hs

/-- Every reachable state satisfies the invariant. -/
theorem reachable_inv {s : QState} (h : Reachable s) : Inv s := by
  induction h with
  | refl => exact initInv
  | tail _ hstep ih => exact stepInv ih hstep

/-- The number of commands whose status is `PROCESSING`. -/
def countProcessing (s : QState) : Nat :=
  s.store.countP (fun c => decide (c.status = CommandStatus.processing))

theorem countP_le_one {α : Type} (p : α → Bool) (l : List α)
    (h : ∀ (i j : Fin l.length), p (l.get i) → p (l.get j) → (i : Nat) = (j : Nat)) :
    l.countP p ≤ 1 := by
  induction l with
  | nil => simp
  | cons x xs ih =>
    rw [List.countP_cons]
    by_cases hx : p x
    · have hzero : xs.countP p = 0 := by
        rw [List.countP_eq_zero]
        intro a ha hpa
        obtain ⟨⟨j, hj⟩, hga⟩ := List.mem_iff_get.mp ha
        have hj1 : j + 1 < (x :: xs).length := by
          simpa using Nat.succ_lt_succ hj
        have hga1 : (x :: xs).get ⟨j + 1, hj1⟩ = a := hga
        have h1 : p ((x :: xs).get ⟨j + 1, hj1⟩) := by rw [hga1]; exact hpa
        have h0 : p ((x :: xs).get ⟨0, by simp⟩) := hx
        have := h ⟨j + 1, hj1⟩ ⟨0, by simp⟩ h1 h0
        exact Nat.succ_ne_zero j this
      simp [hzero, hx]
    · have hle : xs.countP p ≤ 1 := by
        apply ih
        intro i j hpi hpj
        have hi1 : (i : Nat) + 1 < (x :: xs).length := by simp
        have hj1 : (j : Nat) + 1 < (x :: xs).length := by simp
        have hpi' : p ((x :: xs).get ⟨(i : Nat) + 1, hi1⟩) := hpi
        have hpj' : p ((x :: xs).get ⟨(j : Nat) + 1, hj1⟩) := hpj
        have := h ⟨(i : Nat) + 1, hi1⟩ ⟨(j : Nat) + 1, hj1⟩ hpi' hpj'
        simp only [Fin.val_mk] at this
        omega
      simp [hx]
      omega

theorem inv_countProcessing {s : QState} (hs : Inv s) : countProcessing s ≤ 1 := by
  apply countP_le_one
  intro i j hpi hpj
  have hci : s.cmd? (i : Nat) = some (s.store.get i) := by
    show s.store[(i : Nat)]? = _
    rw [List.getElem?_eq_getElem i.isLt]
    rfl
  have hcj : s.cmd? (j : Nat) = some (s.store.get j) := by
    show s.store[(j : Nat)]? = _
    rw [List.getElem?_eq_getElem j.isLt]
    rfl
  have h1 := hs.procPhase (i : Nat) (s.store.get i) hci (of_decide_eq_true hpi)
  have h2 := hs.procPhase (j : Nat) (s.store.get j) hcj (of_decide_eq_true hpj)
  have := h1.symm.trans h2
  injection this

/-- The bus-lock discipline of `ModbusClient` (`modbus_client.py`): each
of `read_holding_registers`, `write_holding_register` and
`read_input_registers` performs its whole request/retry cycle inside
`async with self.lock`, so a Transport operation starts only when no
other operation holds the lock.  `active` holds the operations currently
inside the critical section; `nextOp` numbers operations in start
order. -/
structure TransportState where
  active : List Nat
  nextOp : Nat
deriving DecidableEq, Repr

/-- Acquiring the bus lock (only when free) and releasing it at the end
of the `async with` block. -/
inductive TStep : TransportState → TransportState → Prop
  | enter (ts : TransportState) (h : ts.active = []) :
      TStep ts { active := [ts.nextOp], nextOp := ts.nextOp + 1 }
  | exit (ts : TransportState) (op : Nat) (h : ts.active = [op]) :
      TStep ts { ts with active := [] }

def initTransport : TransportState := { active := [], nextOp := 0 }

def TReachable (ts : TransportState) : Prop :=
  Relation.ReflTransGen TStep initTransport ts

/-- Concrete states used to witness the reachability hypotheses: submit
one `read_register` command, dispatch it, resolve the race with the
execute task completing while the timeout task is also in the done set,
then run the late `timeout_command`. -/
def traceCmd : Command := { id := "c1", commandType := "read_register" }

def traceProcCmd : Command := procMark traceCmd

def traceS1 : QState := enqueueNew initState "c1" "read_register" .normal 30

def traceS2 : QState := { (getNextCommand traceS1).2 with phase := .running 0 }

def traceDoneCmd : Command := completeMark 42 traceProcCmd

def traceS3 : QState := { completeCommand traceS2 0 42 with phase := .timedWait 0 }

def traceTimeoutCmd : Command := timeoutMark traceDoneCmd

def traceS4 : QState := { timeoutCommand traceS3 0 with phase := .idle }

theorem traceS1_reachable : Reachable traceS1 :=
  Relation.ReflTransGen.single
    (Step.add initState "c1" "read_register" .normal 30 "c1" traceS1 (by rfl))

theorem traceS2_reachable : Reachable traceS2 :=
  traceS1_reachable.tail
    (Step.dispatch traceS1 0 (getNextCommand traceS1).2 (by rfl) (by rfl))

theorem traceS3_reachable : Reachable traceS3 :=
  traceS2_reachable.tail (Step.execComplete traceS2 0 42 true (by rfl))

theorem traceS4_reachable : Reachable traceS4 :=
  traceS3_reachable.tail (Step.lateTimeout traceS3 0 (by rfl))

def traceT1 : TransportState := { active := [0], nextOp := 1 }

theorem traceT1_reachable : TReachable traceT1 :=
  Relation.ReflTransGen.single (TStep.enter initTransport rfl)

/-- The HTTP-path full-queue rejection state (pending at capacity). -/
def fullCmd : Command := { id := "f", commandType := "x" }

def fullState : QState :=
  { settings := {}, store := List.replicate 100 fullCmd,
    pending := List.range 100, current := none, phase := .idle, history := [] }

/-- C1: at most one command in the whole system is in Processing state at
any instant: for every reachable state of the queue's step relation the
number of commands whose status is `PROCESSING` is at most one, and in
the bus-lock model of the Transport at most one operation is inside the
lock-guarded critical section at a time, so no two Transport operations
overlap. -/
theorem serialization_invariant :
    (∀ s : QState, Reachable s → countProcessing s ≤ 1) ∧
    (∀ ts : TransportState, TReachable ts → ts.active.length ≤ 1) := by
  constructor
  · intro s hs
    exact inv_countProcessing (reachable_inv hs)
  · intro ts hts
    induction hts with
    | refl => simp [initTransport]
    | tail _ hstep _ =>
      cases hstep with
      | enter h => simp
      | exit op h => simp

theorem serialization_invariant_witness :
    Reachable traceS2 ∧ countProcessing traceS2 ≤ 1 ∧
      TReachable traceT1 ∧ traceT1.active.length ≤ 1 :=
  ⟨traceS2_reachable, serialization_invariant.1 traceS2 traceS2_reachable,
    traceT1_reachable, serialization_invariant.2 traceT1 traceT1_reachable⟩

/-- C2: `_insert_by_priority` inserts at the first position with strictly
lower priority and `get_next_command` pops the head, so in a queue built
by submissions alone, a strictly higher-priority command sits (and is
dispatched) strictly earlier, and two equal-priority commands keep their
submission order (FIFO within a band). -/
theorem priority_fifo_order (cmds : List Command)
    (i j : Fin (submitAll cmds).length) (a b : Nat × Command)
    (ha : (submitAll cmds).get i = a) (hb : (submitAll cmds).get j = b) :
    (b.2.priority.value < a.2.priority.value → (i : Nat) < (j : Nat)) ∧
    (a.2.priority.value = b.2.priority.value → a.1 < b.1 → (i : Nat) < (j : Nat)) ∧
    (∀ (s : QState) (t : Nat) (rest : List Nat), s.pending = t :: rest →
      (getNextCommand s).1 = some t) := by
  have hp := submitAll_pairwise cmds
  rw [List.pairwise_iff_get] at hp
  refine ⟨?_, ?_, ?_⟩
  · intro hpr
    rcases Nat.lt_trichotomy (i : Nat) (j : Nat) with h | h | h
    · exact h
    · exfalso
      have hab : a = b := by
        rw [← ha, ← hb]
        exact congrArg _ (Fin.ext h)
      rw [hab] at hpr
      exact lt_irrefl _ hpr
    · exfalso
      have := hp j i (Fin.lt_def.mpr h)
      rw [hb, ha] at this
      rcases this with h1 | ⟨h2, _⟩
      · omega
      · omega
  · intro heq htag
    rcases Nat.lt_trichotomy (i : Nat) (j : Nat) with h | h | h
    · exact h
    · exfalso
      have hab : a = b := by
        rw [← ha, ← hb]
        exact congrArg _ (Fin.ext h)
      rw [hab] at htag
      exact lt_irrefl _ htag
    · exfalso
      have := hp j i (Fin.lt_def.mpr h)
      rw [hb, ha] at this
      rcases this with h1 | ⟨h2, h3⟩
      · omega
      · omega
  · intro s t rest hp'
    rw [getNextCommand, hp']

/-- The S3 scenario: A (normal), B (critical), C (normal). -/
def wCmdA : Command := { id := "A", commandType := "x" }

def wCmdB : Command := { id := "B", commandType := "x", priority := .critical }

def wCmdC : Command := { id := "C", commandType := "x" }

theorem priority_fifo_order_witness :
    (submitAll [wCmdA, wCmdB, wCmdC]).get ⟨0, by decide⟩ = (1, wCmdB) ∧
    (submitAll [wCmdA, wCmdB, wCmdC]).get ⟨1, by decide⟩ = (0, wCmdA) ∧
    (submitAll [wCmdA, wCmdB, wCmdC]).get ⟨2, by decide⟩ = (2, wCmdC) ∧
    (1 : Nat) < 2 ∧ (0 : Nat) < 1 :=
  ⟨by decide, by decide, by decide,
    (priority_fifo_order [wCmdA, wCmdB, wCmdC] ⟨1, by decide⟩ ⟨2, by decide⟩
      (0, wCmdA) (2, wCmdC) (by decide) (by decide)).2.1 (by decide) (by decide),
    (priority_fifo_order [wCmdA, wCmdB, wCmdC] ⟨0, by decide⟩ ⟨1, by decide⟩
      (1, wCmdB) (0, wCmdA) (by decide) (by decide)).1 (by decide)⟩

/-- C3: in every reachable state `attempts ≤ retry_count` for every
command and `FAILED` implies `attempts = retry_count`; and an execution
failure with `attempts < retry_count` takes the retry branch of
`fail_command`: status back to `PENDING` (priority and attempts
unchanged, so the retry is neither promoted nor demoted and transport
retries inside the dispatch do not bump `attempts`), re-inserted by
`_insert_by_priority`, current cleared. -/
theorem retry_bound (s : QState) (hs : Reachable s) :
    (∀ t c, s.cmd? t = some c →
      c.attempts ≤ c.retryCount ∧ (c.status = .failed → c.attempts = c.retryCount)) ∧
    (∀ (t : Nat) (err : String) (c : Command), s.phase = .running t →
      s.cmd? t = some c → c.attempts < c.retryCount →
      failCommand s t err = failRetryState s t err ∧
      (failRetryState s t err).cmd? t =
        some { c with error := some err, status := .pending } ∧
      (failRetryState s t err).pending =
        insertByPr (tokenPr (failRetryState s t err).store) t s.pending ∧
      (failRetryState s t err).current = none) := by
  have hinv := reachable_inv hs
  constructor
  · intro t c hc
    exact ⟨hinv.attemptsLe t c hc, hinv.failedEq t c hc⟩
  · intro t err c hph hc hlt
    have hc' : s.store[t]? = some c := hc
    refine ⟨failCommand_retry hc hlt, ?_, rfl, rfl⟩
    show (listModify (failRetryMark err) t s.store)[t]? = some _
    rw [getElem?_listModify_self, hc']
    rfl

theorem retry_bound_witness :
    Reachable traceS2 ∧ traceS2.cmd? 0 = some traceProcCmd ∧
      traceProcCmd.attempts ≤ traceProcCmd.retryCount ∧
      failCommand traceS2 0 "boom" = failRetryState traceS2 0 "boom" :=
  ⟨traceS2_reachable, by rfl,
    ((retry_bound traceS2 traceS2_reachable).1 0 traceProcCmd (by rfl)).1,
    ((retry_bound traceS2 traceS2_reachable).2 0 "boom" traceProcCmd rfl
      (by rfl) (by decide)).1⟩

/-- C4: `timeout_command` on the dispatched command sets status
`TIMEOUT` with the synthetic message citing the timeout value, clears
the current command, leaves the pending queue unchanged (and the command
is not in it, so it is never re-queued); the step exists in the
dispatcher, and a subsequent `add_command` below capacity succeeds. -/
theorem timeout_terminal (s : QState) (t : Nat) (c : Command)
    (hs : Reachable s) (hph : s.phase = .running t) (hc : s.cmd? t = some c) :
    (timeoutCommand s t).cmd? t =
      some { c with status := .timeout, error := some (timeoutMessage c.timeout) } ∧
    (timeoutCommand s t).current = none ∧
    (timeoutCommand s t).pending = s.pending ∧
    t ∉ (timeoutCommand s t).pending ∧
    Step s { timeoutCommand s t with phase := .idle } ∧
    (∀ (cid ctype : String) (pr : CommandPriority) (tmo : Nat),
      (timeoutCommand s t).pending.length < s.settings.maxQueueSize →
      ∃ s', addCommand { timeoutCommand s t with phase := .idle } cid ctype pr tmo
        = .ok cid s') := by
  have hinv := reachable_inv hs
  have hc' : s.store[t]? = some c := hc
  refine ⟨?_, rfl, rfl, ?_, Step.execTimeout s t hph, ?_⟩
  · show (listModify timeoutMark t s.store)[t]? = some _
    rw [getElem?_listModify_self, hc']
    rfl
  · show t ∉ s.pending
    exact hinv.runNotPending t hph
  · intro cid ctype pr tmo hlen
    refine ⟨enqueueNew { timeoutCommand s t with phase := .idle } cid ctype pr tmo, ?_⟩
    unfold addCommand
    have hcond : ¬ ({ timeoutCommand s t with phase := Phase.idle }.pending.length ≥
        { timeoutCommand s t with phase := Phase.idle }.settings.maxQueueSize) :=
      Nat.not_le.mpr hlen
    rw [if_neg hcond]

theorem timeout_terminal_witness :
    Reachable traceS2 ∧
      (timeoutCommand traceS2 0).cmd? 0 =
        some { traceProcCmd with
                status := .timeout
                error := some (timeoutMessage traceProcCmd.timeout) } ∧
      0 ∉ (timeoutCommand traceS2 0).pending :=
  ⟨traceS2_reachable,
    (timeout_terminal traceS2 0 traceProcCmd traceS2_reachable rfl (by rfl)).1,
    (timeout_terminal traceS2 0 traceProcCmd traceS2_reachable rfl (by rfl)).2.2.2.1⟩

/-- C5 (code bug): when the execute task completes the command and the
timeout task lands in the `done` set of the same `asyncio.wait` tick,
`process_next_command` still runs `timeout_command` on the
already-Completed command: the terminal state is mutated
(`COMPLETED` → `TIMEOUT`), contradicting the terminal-state-immutability
claim. -/
theorem terminal_state_mutated_in_timeout_race :
    Reachable traceS3 ∧
    traceS3.cmd? 0 = some traceDoneCmd ∧
    traceDoneCmd.status = .completed ∧
    Step traceS3 traceS4 ∧
    traceS4.cmd? 0 = some traceTimeoutCmd ∧
    traceTimeoutCmd.status = .timeout ∧
    traceTimeoutCmd.status ≠ CommandStatus.completed :=
  ⟨traceS3_reachable, by rfl, by rfl, Step.lateTimeout traceS3 0 (by rfl),
    by rfl, by rfl, by decide⟩

/-- C9: a submission against a pending queue at or above
`MAX_QUEUE_SIZE` is rejected on both paths — `add_command` raises the
queue-full error (result `queueFull`), `add_mqtt_command` logs the error
and returns the command id — and in both cases the returned state is the
input state: nothing is enqueued, pending and history unchanged. -/
theorem queue_full_rejection (s : QState) (cid ctype pstr : String)
    (pr : CommandPriority) (tmo : Nat)
    (hfull : s.settings.maxQueueSize ≤ s.pending.length) :
    addCommand s cid ctype pr tmo = .queueFull s ∧
    addMqttCommand s cid ctype pstr tmo = (cid, s) := by
  constructor
  · unfold addCommand
    rw [if_pos hfull]
  · unfold addMqttCommand
    rw [if_pos hfull]

theorem queue_full_rejection_witness :
    fullState.settings.maxQueueSize ≤ fullState.pending.length ∧
      addCommand fullState "n" "x" CommandPriority.normal 30 = .queueFull fullState ∧
      addMqttCommand fullState "n" "x" "normal" 30 = ("n", fullState) := by
  have h : fullState.settings.maxQueueSize ≤ fullState.pending.length := by
    simp [fullState]
  exact ⟨h, (queue_full_rejection fullState "n" "x" "normal" .normal 30 h).1,
    (queue_full_rejection fullState "n" "x" "normal" .normal 30 h).2⟩

/-- The inputs `HealthMonitor._process_health_alerts` inspects: whether
`health_status["overall_status"]` is `"critical"`, the `connected` flags
of the modbus and mqtt component sub-statuses, and the monitor's
`consecutive_failures` counter. -/
structure HealthInput where
  overallCritical : Bool
  modbusConnected : Bool
  mqttConnected : Bool
  consecutiveFailures : Nat
deriving DecidableEq, Repr

/-- Python `set.add` on the `alerts_sent` set (modelled as a duplicate-free
list). -/
def setAdd (k : String) (s : List String) : List String :=
  if k ∈ s then s else k :: s

/-- Python `set.discard`. -/
def setDiscard (k : String) (s : List String) : List String :=
  s.filter (fun x => decide (x ≠ k))

/-- One alert block of `_process_health_alerts` for a key whose `else`
branch discards the key (the modbus, mqtt and consecutive-failures
blocks): if the condition is raised and the key is not in `alerts_sent`,
send the alert and add the key; if raised and present, do nothing; if
not raised, discard the key.  The state is the pair
(`alerts_sent`, alerts emitted so far this invocation); an alert is its
`(alert_type, severity)` pair. -/
def alertStepD (raised : Bool) (key : String) (alert : String × String)
    (st : List String × List (String × String)) :
    List String × List (String × String) :=
  if raised then
    (if key ∈ st.1 then st else (setAdd key st.1, st.2 ++ [alert]))
  else (setDiscard key st.1, st.2)

/-- The `system_critical` block of `_process_health_alerts`: identical to
`alertStepD` except that the source has no `else` branch, so the key is
never discarded. -/
def alertStep (raised : Bool) (key : String) (alert : String × String)
    (st : List String × List (String × String)) :
    List String × List (String × String) :=
  if raised then
    (if key ∈ st.1 then st else (setAdd key st.1, st.2 ++ [alert]))
  else st

/-- Block 1 of `_process_health_alerts`: the critical-system alert
(`overall_status == "critical"`), which is never discarded. -/
def phaStage1 (sent : List String) (inp : HealthInput) :
    List String × List (String × String) :=
  alertStep inp.overallCritical "system_critical" ("system_health", "critical")
    (sent, [])

/-- Block 2: the modbus connection alert, raised when the modbus
component is not connected, discarded when the connection is back. -/
def phaStage2 (sent : List String) (inp : HealthInput) :
    List String × List (String × String) :=
  alertStepD (!inp.modbusConnected) "modbus_disconnected"
    ("modbus_connection", "critical") (phaStage1 sent inp)

/-- Block 3: the mqtt connection alert. -/
def phaStage3 (sent : List String) (inp : HealthInput) :
    List String × List (String × String) :=
  alertStepD (!inp.mqttConnected) "mqtt_disconnected"
    ("mqtt_connection", "critical") (phaStage2 sent inp)

/-- Method `HealthMonitor._process_health_alerts`: the four alert blocks in
source order, ending with the performance alert raised when
`consecutive_failures >= 3`.  Returns the new `alerts_sent` set and the
alerts sent (via `_send_alert`) during this invocation. -/
def processHealthAlerts (sent : List String) (inp : HealthInput) :
    List String × List (String × String) :=
  alertStepD (decide (3 ≤ inp.consecutiveFailures)) "consecutive_failures"
    ("performance", "warning") (phaStage3 sent inp)

theorem alertStepD_true_mem (key : String) (a : String × String)
    (st : List String × List (String × String)) :
    key ∈ (alertStepD true key a st).1 := by
  unfold alertStepD
  by_cases h : key ∈ st.1
  · simp [h]
  · simp [h, setAdd]

theorem alertStep_true_mem (key : String) (a : String × String)
    (st : List String × List (String × String)) :
    key ∈ (alertStep true key a st).1 := by
  unfold alertStep
  by_cases h : key ∈ st.1
  · simp [h]
  · simp [h, setAdd]

theorem alertStepD_false_not_mem (key : String) (a : String × String)
    (st : List String × List (String × String)) :
    key ∉ (alertStepD false key a st).1 := by
  unfold alertStepD
  simp [setDiscard]

theorem mem_fst_alertStepD (r : Bool) (key : String) (a : String × String)
    (st : List String × List (String × String)) {k : String} (hk : k ≠ key) :
    (k ∈ (alertStepD r key a st).1 ↔ k ∈ st.1) := by
  unfold alertStepD
  cases r
  · simp [setDiscard, hk]
  · by_cases h : key ∈ st.1
    · simp [h]
    · simp [h, setAdd, hk]

theorem mem_fst_alertStep (r : Bool) (key : String) (a : String × String)
    (st : List String × List (String × String)) {k : String} (hk : k ≠ key) :
    (k ∈ (alertStep r key a st).1 ↔ k ∈ st.1) := by
  unfold alertStep
  cases r
  · simp
  · by_cases h : key ∈ st.1
    · simp [h]
    · simp [h, setAdd, hk]

theorem mem_snd_alertStepD (r : Bool) (key : String) (a : String × String)
    (st : List String × List (String × String)) {b : String × String} (hb : b ≠ a) :
    (b ∈ (alertStepD r key a st).2 ↔ b ∈ st.2) := by
  unfold alertStepD
  cases r
  · simp
  · by_cases h : key ∈ st.1
    · simp [h]
    · simp [h, hb]

theorem mem_snd_alertStep (r : Bool) (key : String) (a : String × String)
    (st : List String × List (String × String)) {b : String × String} (hb : b ≠ a) :
    (b ∈ (alertStep r key a st).2 ↔ b ∈ st.2) := by
  unfold alertStep
  cases r
  · simp
  · by_cases h : key ∈ st.1
    · simp [h]
    · simp [h, hb]

theorem own_snd_alertStepD (key : String) (a : String × String)
    (st : List String × List (String × String)) :
    (a ∈ (alertStepD true key a st).2 ↔ a ∈ st.2 ∨ key ∉ st.1) := by
  unfold alertStepD
  by_cases h : key ∈ st.1
  · simp [h]
  · simp [h]

theorem own_snd_alertStep (key : String) (a : String × String)
    (st : List String × List (String × String)) :
    (a ∈ (alertStep true key a st).2 ↔ a ∈ st.2 ∨ key ∉ st.1) := by
  unfold alertStep
  by_cases h : key ∈ st.1
  · simp [h]
  · simp [h]

theorem alertStep_false (key : String) (a : String × String)
    (st : List String × List (String × String)) :
    alertStep false key a st = st := rfl

/-- C6 (amended): for the `modbus_disconnected`, `mqtt_disconnected` and
`consecutive_failures` keys, a raised condition inserts the key and
sends the alert exactly when the key was not already in `alerts_sent`
(so consecutive raised checks send exactly one alert), and a ceased
condition discards the key (so a later re-raise sends again); the
`system_critical` key is likewise inserted and deduplicated, but it is
never discarded: when the condition ceases membership is unchanged, so a
later re-raise does not send again. -/
theorem alert_edge_behavior (sent : List String) (inp : HealthInput) :
    ((inp.modbusConnected = false →
       "modbus_disconnected" ∈ (processHealthAlerts sent inp).1 ∧
       (("modbus_connection", "critical") ∈ (processHealthAlerts sent inp).2 ↔
         "modbus_disconnected" ∉ sent)) ∧
     (inp.modbusConnected = true →
       "modbus_disconnected" ∉ (processHealthAlerts sent inp).1)) ∧
    ((inp.mqttConnected = false →
       "mqtt_disconnected" ∈ (processHealthAlerts sent inp).1 ∧
       (("mqtt_connection", "critical") ∈ (processHealthAlerts sent inp).2 ↔
         "mqtt_disconnected" ∉ sent)) ∧
     (inp.mqttConnected = true →
       "mqtt_disconnected" ∉ (processHealthAlerts sent inp).1)) ∧
    ((3 ≤ inp.consecutiveFailures →
       "consecutive_failures" ∈ (processHealthAlerts sent inp).1 ∧
       (("performance", "warning") ∈ (processHealthAlerts sent inp).2 ↔
         "consecutive_failures" ∉ sent)) ∧
     (inp.consecutiveFailures < 3 →
       "consecutive_failures" ∉ (processHealthAlerts sent inp).1)) ∧
    ((inp.overallCritical = true →
       "system_critical" ∈ (processHealthAlerts sent inp).1 ∧
       (("system_health", "critical") ∈ (processHealthAlerts sent inp).2 ↔
         "system_critical" ∉ sent)) ∧
     (inp.overallCritical = false →
       ("system_critical" ∈ (processHealthAlerts sent inp).1 ↔
         "system_critical" ∈ sent))) := by
  refine ⟨⟨?_, ?_⟩, ⟨?_, ?_⟩, ⟨?_, ?_⟩, ⟨?_, ?_⟩⟩
  · intro h
    have hr : (!inp.modbusConnected) = true := by rw [h]; rfl
    constructor
    · show "modbus_disconnected" ∈ (alertStepD _ _ _ (phaStage3 sent inp)).1
      rw [mem_fst_alertStepD _ _ _ _ (by decide)]
      unfold phaStage3
      rw [mem_fst_alertStepD _ _ _ _ (by decide)]
      unfold phaStage2
      rw [hr]
      exact alertStepD_true_mem _ _ _
    · show ("modbus_connection", "critical") ∈
        (alertStepD _ _ _ (phaStage3 sent inp)).2 ↔ _
      rw [mem_snd_alertStepD _ _ _ _ (by decide)]
      unfold phaStage3
      rw [mem_snd_alertStepD _ _ _ _ (by decide)]
      unfold phaStage2
      rw [hr, own_snd_alertStepD]
      unfold phaStage1
      rw [mem_snd_alertStep _ _ _ _ (by decide),
        mem_fst_alertStep _ _ _ _ (by decide)]
      simp
  · intro h
    have hr : (!inp.modbusConnected) = false := by rw [h]; rfl
    show "modbus_disconnected" ∉ (alertStepD _ _ _ (phaStage3 sent inp)).1
    rw [mem_fst_alertStepD _ _ _ _ (by decide)]
    unfold phaStage3
    rw [mem_fst_alertStepD _ _ _ _ (by decide)]
    unfold phaStage2
    rw [hr]
    exact alertStepD_false_not_mem _ _ _
  · intro h
    have hr : (!inp.mqttConnected) = true := by rw [h]; rfl
    constructor
    · show "mqtt_disconnected" ∈ (alertStepD _ _ _ (phaStage3 sent inp)).1
      rw [mem_fst_alertStepD _ _ _ _ (by decide)]
      unfold phaStage3
      rw [hr]
      exact alertStepD_true_mem _ _ _
    · show ("mqtt_connection", "critical") ∈
        (alertStepD _ _ _ (phaStage3 sent inp)).2 ↔ _
      rw [mem_snd_alertStepD _ _ _ _ (by decide)]
      unfold phaStage3
      rw [hr, own_snd_alertStepD]
      unfold phaStage2
      rw [mem_snd_alertStepD _ _ _ _ (by decide),
        mem_fst_alertStepD _ _ _ _ (by decide)]
      unfold phaStage1
      rw [mem_snd_alertStep _ _ _ _ (by decide),
        mem_fst_alertStep _ _ _ _ (by decide)]
      simp
  · intro h
    have hr : (!inp.mqttConnected) = false := by rw [h]; rfl
    show "mqtt_disconnected" ∉ (alertStepD _ _ _ (phaStage3 sent inp)).1
    rw [mem_fst_alertStepD _ _ _ _ (by decide)]
    unfold phaStage3
    rw [hr]
    exact alertStepD_false_not_mem _ _ _
  · intro h
    have hr : decide (3 ≤ inp.consecutiveFailures) = true := decide_eq_true h
    constructor
    · show "consecutive_failures" ∈ (alertStepD _ _ _ (phaStage3 sent inp)).1
      rw [hr]
      exact alertStepD_true_mem _ _ _
    · show ("performance", "warning") ∈
        (alertStepD _ _ _ (phaStage3 sent inp)).2 ↔ _
      rw [hr, own_snd_alertStepD]
      unfold phaStage3
      rw [mem_snd_alertStepD _ _ _ _ (by decide),
        mem_fst_alertStepD _ _ _ _ (by decide)]
      unfold phaStage2
      rw [mem_snd_alertStepD _ _ _ _ (by decide),
        mem_fst_alertStepD _ _ _ _ (by decide)]
      unfold phaStage1
      rw [mem_snd_alertStep _ _ _ _ (by decide),
        mem_fst_alertStep _ _ _ _ (by decide)]
      simp
  · intro h
    have hr : decide (3 ≤ inp.consecutiveFailures) = false :=
      decide_eq_false (Nat.not_le.mpr h)
    show "consecutive_failures" ∉ (alertStepD _ _ _ (phaStage3 sent inp)).1
    rw [hr]
    exact alertStepD_false_not_mem _ _ _
  · intro h
    constructor
    · show "system_critical" ∈ (alertStepD _ _ _ (phaStage3 sent inp)).1
      rw [mem_fst_alertStepD _ _ _ _ (by decide)]
      unfold phaStage3
      rw [mem_fst_alertStepD _ _ _ _ (by decide)]
      unfold phaStage2
      rw [mem_fst_alertStepD _ _ _ _ (by decide)]
      unfold phaStage1
      rw [h]
      exact alertStep_true_mem _ _ _
    · show ("system_health", "critical") ∈
        (alertStepD _ _ _ (phaStage3 sent inp)).2 ↔ _
      rw [mem_snd_alertStepD _ _ _ _ (by decide)]
      unfold phaStage3
      rw [mem_snd_alertStepD _ _ _ _ (by decide)]
      unfold phaStage2
      rw [mem_snd_alertStepD _ _ _ _ (by decide)]
      unfold phaStage1
      rw [h, own_snd_alertStep]
      simp
  · intro h
    show "system_critical" ∈ (alertStepD _ _ _ (phaStage3 sent inp)).1 ↔ _
    rw [mem_fst_alertStepD _ _ _ _ (by decide)]
    unfold phaStage3
    rw [mem_fst_alertStepD _ _ _ _ (by decide)]
    unfold phaStage2
    rw [mem_fst_alertStepD _ _ _ _ (by decide)]
    unfold phaStage1
    rw [h, alertStep_false]

/-- Health-check inputs for the concrete scenarios: only the overall
status critical, everything healthy, and only the modbus link down. -/
def inpCritOnly : HealthInput :=
  { overallCritical := true, modbusConnected := true, mqttConnected := true,
    consecutiveFailures := 0 }

def inpHealthy : HealthInput :=
  { overallCritical := false, modbusConnected := true, mqttConnected := true,
    consecutiveFailures := 0 }

def inpModbusDown : HealthInput :=
  { overallCritical := false, modbusConnected := false, mqttConnected := true,
    consecutiveFailures := 0 }

theorem alert_edge_behavior_witness :
    inpModbusDown.modbusConnected = false ∧
    "modbus_disconnected" ∈ (processHealthAlerts [] inpModbusDown).1 ∧
    (("modbus_connection", "critical") ∈ (processHealthAlerts [] inpModbusDown).2 ↔
      "modbus_disconnected" ∉ ([] : List String)) :=
  ⟨rfl, ((alert_edge_behavior [] inpModbusDown).1.1 rfl).1,
    ((alert_edge_behavior [] inpModbusDown).1.1 rfl).2⟩

/-- C6 counterexample: the `system_critical` key is inserted on the
first critical check, is NOT discarded when the condition ceases, and a
later re-raise therefore emits no alert — against the claim that every
key is discarded when its condition ceases so a re-raise re-emits. -/
theorem system_critical_alert_never_cleared :
    processHealthAlerts [] inpCritOnly =
      (["system_critical"], [("system_health", "critical")]) ∧
    processHealthAlerts ["system_critical"] inpHealthy =
      (["system_critical"], []) ∧
    processHealthAlerts ["system_critical"] inpCritOnly =
      (["system_critical"], []) := by
  refine ⟨?_, ?_, ?_⟩ <;> rfl

/-- A value of the enriched record (`DataPublisher._enhance_data`
produces a Python dict whose values are ints from the registers, derived
strings, a rounded ratio, and the nested `collection_metadata` dict —
the latter abbreviated to its `data_quality` string and
`collection_count`; the `collection_time` wall-clock stamp is not
modelled). -/
inductive EV
  | i (n : Int)
  | q (x : ℚ)
  | s (str : String)
  | meta (quality : String) (count : Nat)
deriving DecidableEq, Repr

/-- The raw register mapping passed to `_enhance_data` (register name to
integer value; the curated registers are all U16/I16, which the codec
returns as ints). -/
abbrev RawData := List (String × Int)

/-- Python `raw_data.get(k)` (dict keys are unique, so the first match). -/
def lookupRaw (d : RawData) (k : String) : Option Int :=
  (d.find? (fun p => p.1 == k)).map (fun p => p.2)

/-- Python `raw_data.get(k, 0)`. -/
def rawGetD (d : RawData) (k : String) : Int :=
  (lookupRaw d k).getD 0

/-- The key list of a raw mapping. -/
def keysRaw (d : RawData) : List String := d.map (fun p => p.1)

/-- Python dict assignment `enhanced[k] = v`: replace the binding if the
key exists, else append it. -/
def dsetEV (d : List (String × EV)) (k : String) (v : EV) : List (String × EV) :=
  if d.any (fun p => p.1 == k) then
    d.map (fun p => if p.1 == k then (k, v) else p)
  else d ++ [(k, v)]

def keysEV (d : List (String × EV)) : List String := d.map (fun p => p.1)

/-- Method `InverterRegisters.get_working_mode_description`. -/
def getWorkingModeDescription (m : Int) : String :=
  if m = 0 then "Power On"
  else if m = 1 then "Standby"
  else if m = 2 then "Line Mode"
  else if m = 3 then "Battery Mode"
  else if m = 4 then "Fault Mode"
  else if m = 5 then "Hybrid Mode"
  else if m = 6 then "Charge Mode"
  else if m = 7 then "Bypass Mode"
  else "Unknown Mode (" ++ toString m ++ ")"

/-- Method `InverterRegisters.get_fault_description`. -/
def getFaultDescription (f : Int) : String :=
  if f = 0 then "No Fault"
  else if f = 1 then "Fan Error"
  else if f = 2 then "Over Temperature"
  else if f = 3 then "Battery Voltage High"
  else if f = 4 then "Battery Voltage Low"
  else if f = 5 then "Output Short Circuit"
  else if f = 6 then "Output Voltage High"
  else if f = 7 then "Over Load Timeout"
  else if f = 8 then "Bus Voltage High"
  else if f = 9 then "Bus Soft Start Failed"
  else if f = 10 then "Main Relay Failed"
  else if f = 11 then "Output Voltage Low"
  else if f = 12 then "Inverter Soft Start Failed"
  else if f = 13 then "Self Test Failed"
  else if f = 14 then "OP DC Voltage Over"
  else if f = 15 then "Bat Open"
  else if f = 16 then "Current Sensor Failed"
  else if f = 17 then "Battery Short"
  else if f = 18 then "Power Limit"
  else if f = 19 then "PV Voltage High"
  else if f = 20 then "MPPT Overload Fault"
  else if f = 21 then "MPPT Overload Warning"
  else if f = 22 then "Battery Too Low to Charge"
  else "Unknown Fault (" ++ toString f ++ ")"

/-- Method `DataPublisher._assess_data_quality`. -/
def assessDataQuality (data : RawData) : String :=
  if data.isEmpty then "no_data"
  else if ¬ ("battery_voltage" ∈ keysRaw data ∧ "battery_soc" ∈ keysRaw data ∧
      "working_mode" ∈ keysRaw data) then "poor"
  else
    let batteryVoltage := rawGetD data "battery_voltage"
    let batterySoc := rawGetD data "battery_soc"
    if batteryVoltage < 10 ∨ batteryVoltage > 60 then "questionable"
    else if batterySoc < 0 ∨ batterySoc > 100 then "questionable"
    else if data.length < 5 then "limited"
    else if data.length < 10 then "good"
    else "excellent"

/-- Python `round(x, 2)` on the efficiency ratio.  Python rounds half to even;
this model rounds half away from even only at exact .005 ties, which no
claim exercises. -/
def roundTo2 (x : ℚ) : ℚ := ((round (x * 100) : ℤ) : ℚ) / 100

/-- The `energy_flow` classification of `_enhance_data` (defaults of 0
for absent `pv_power` / `battery_power`). -/
def energyFlow (raw : RawData) : String :=
  if rawGetD raw "pv_power" > 0 then
    (if rawGetD raw "battery_power" > 0 then "pv_to_battery_and_load"
     else "pv_to_load")
  else if rawGetD raw "battery_power" < 0 then "battery_to_load"
  else "grid_to_load"

/-- The `battery_status` grading of `_enhance_data` (default 0 for an
absent `battery_soc`). -/
def batteryStatus (raw : RawData) : String :=
  if rawGetD raw "battery_soc" > 90 then "full"
  else if rawGetD raw "battery_soc" > 50 then "good"
  else if rawGetD raw "battery_soc" > 20 then "low"
  else "critical"

/-- Method `_enhance_data`, stage 1: `enhanced = raw_data.copy()` then
`enhanced["energy_flow"] = ...`. -/
def enhStage1 (raw : RawData) : List (String × EV) :=
  dsetEV (raw.map (fun p => (p.1, EV.i p.2))) "energy_flow" (EV.s (energyFlow raw))

/-- Stage 2: `enhanced["power_balance"] = pv_power + battery_power -
load_power` (each defaulting to 0 when absent). -/
def enhStage2 (raw : RawData) : List (String × EV) :=
  dsetEV (enhStage1 raw) "power_balance"
    (EV.i (rawGetD raw "pv_power" + rawGetD raw "battery_power" -
      rawGetD raw "load_power"))

/-- Stage 3: `enhanced["battery_status"]`. -/
def enhStage3 (raw : RawData) : List (String × EV) :=
  dsetEV (enhStage2 raw) "battery_status" (EV.s (batteryStatus raw))

/-- Stage 4: `system_efficiency` is set only when
`ac_power_input > 0` (absent defaults to 0, so the division is skipped). -/
def enhStage4 (raw : RawData) : List (String × EV) :=
  if rawGetD raw "ac_power_input" > 0 then
    dsetEV (enhStage3 raw) "system_efficiency"
      (EV.q (roundTo2 ((rawGetD raw "ac_power_output" : ℚ) /
        (rawGetD raw "ac_power_input" : ℚ) * 100)))
  else enhStage3 raw

/-- Stage 5: `working_mode_description`, only when `working_mode` is
present. -/
def enhStage5 (raw : RawData) : List (String × EV) :=
  match lookupRaw raw "working_mode" with
  | some m => dsetEV (enhStage4 raw) "working_mode_description"
      (EV.s (getWorkingModeDescription m))
  | none => enhStage4 raw

/-- Stage 6: `fault_description`, only when `fault_code` is present. -/
def enhStage6 (raw : RawData) : List (String × EV) :=
  match lookupRaw raw "fault_code" with
  | some f => dsetEV (enhStage5 raw) "fault_description"
      (EV.s (getFaultDescription f))
  | none => enhStage5 raw

/-- Method `DataPublisher._enhance_data`: the six derivation stages followed by
the `collection_metadata` entry. -/
def enhanceData (raw : RawData) (collectionCount : Nat) : List (String × EV) :=
  dsetEV (enhStage6 raw) "collection_metadata"
    (EV.meta (assessDataQuality raw) collectionCount)

/-- The curated register list of
`ModbusClient.read_all_data_registers` (`key_registers`). -/
def keyRegisters : List String :=
  ["battery_voltage", "battery_current", "battery_power", "battery_soc",
   "battery_temperature", "ac_voltage_output", "ac_current_output",
   "ac_power_output", "pv_voltage", "pv_current", "pv_power",
   "inverter_temperature", "working_mode", "fault_code"]

theorem self_mem_keysEV_dsetEV (d : List (String × EV)) (k : String) (v : EV) :
    k ∈ keysEV (dsetEV d k v) := by
  unfold dsetEV keysEV
  by_cases h : d.any (fun p => p.1 == k)
  · rw [if_pos h]
    obtain ⟨p, hp, hpk⟩ := List.any_eq_true.mp h
    refine List.mem_map.mpr ⟨(k, v), ?_, rfl⟩
    refine List.mem_map.mpr ⟨p, hp, ?_⟩
    rw [if_pos hpk]
  · rw [if_neg h]
    simp

theorem mem_keysEV_dsetEV (d : List (String × EV)) (k : String) (v : EV)
    {x : String} (hx : x ≠ k) :
    (x ∈ keysEV (dsetEV d k v) ↔ x ∈ keysEV d) := by
  unfold dsetEV keysEV
  by_cases h : d.any (fun p => p.1 == k)
  · rw [if_pos h]
    constructor
    · intro hm
      obtain ⟨q, hq, hqx⟩ := List.mem_map.mp hm
      obtain ⟨p, hp, hpq⟩ := List.mem_map.mp hq
      by_cases hpk : (p.1 == k)
      · rw [if_pos hpk] at hpq
        rw [← hpq] at hqx
        exact absurd hqx.symm hx
      · rw [if_neg hpk] at hpq
        rw [← hpq] at hqx
        exact List.mem_map.mpr ⟨p, hp, hqx⟩
    · intro hm
      obtain ⟨p, hp, hpx⟩ := List.mem_map.mp hm
      have hpk : ¬ (p.1 == k) = true := by
        rw [beq_iff_eq]
        rw [hpx]
        exact hx
      refine List.mem_map.mpr ⟨(p.1, p.2), ?_, hpx⟩
      refine List.mem_map.mpr ⟨p, hp, ?_⟩
      rw [if_neg hpk]
  · rw [if_neg h]
    simp [hx]

theorem mem_keysEV_enhStage4 (raw : RawData) {x : String}
    (hx : x ≠ "system_efficiency") :
    (x ∈ keysEV (enhStage4 raw) ↔ x ∈ keysEV (enhStage3 raw)) := by
  unfold enhStage4
  split
  · exact mem_keysEV_dsetEV _ _ _ hx
  · exact Iff.rfl

theorem mem_keysEV_enhStage5 (raw : RawData) {x : String}
    (hx : x ≠ "working_mode_description") :
    (x ∈ keysEV (enhStage5 raw) ↔ x ∈ keysEV (enhStage4 raw)) := by
  unfold enhStage5
  split
  · exact mem_keysEV_dsetEV _ _ _ hx
  · exact Iff.rfl

theorem mem_keysEV_enhStage6 (raw : RawData) {x : String}
    (hx : x ≠ "fault_description") :
    (x ∈ keysEV (enhStage6 raw) ↔ x ∈ keysEV (enhStage5 raw)) := by
  unfold enhStage6
  split
  · exact mem_keysEV_dsetEV _ _ _ hx
  · exact Iff.rfl

theorem keysEV_base (raw : RawData) :
    keysEV (raw.map (fun p => (p.1, EV.i p.2))) = keysRaw raw := by
  unfold keysEV keysRaw
  rw [List.map_map]
  rfl

/-- The `system_efficiency` key is absent from the enriched record
whenever the raw mapping has no such key and `ac_power_input` defaults
to a non-positive value. -/
theorem sysEff_absent (raw : RawData) (n : Nat)
    (hraw : "system_efficiency" ∉ keysRaw raw)
    (hle : rawGetD raw "ac_power_input" ≤ 0) :
    "system_efficiency" ∉ keysEV (enhanceData raw n) := by
  have h4 : enhStage4 raw = enhStage3 raw := by
    unfold enhStage4
    rw [if_neg (by omega)]
  unfold enhanceData
  rw [mem_keysEV_dsetEV _ _ _ (by decide),
    mem_keysEV_enhStage6 raw (by decide),
    mem_keysEV_enhStage5 raw (by decide), h4]
  unfold enhStage3
  rw [mem_keysEV_dsetEV _ _ _ (by decide)]
  unfold enhStage2
  rw [mem_keysEV_dsetEV _ _ _ (by decide)]
  unfold enhStage1
  rw [mem_keysEV_dsetEV _ _ _ (by decide), keysEV_base]
  exact hraw

/-- C7 (amended): `_enhance_data` is total, and on partial input the
missing register values default to 0, so `energy_flow`, `power_balance`,
`battery_status` and `collection_metadata` are always present (rather
than omitted as the claim states); only `system_efficiency` (requires
`ac_power_input > 0`), `working_mode_description` and
`fault_description` are omitted when their inputs are absent. -/
theorem enrich_total_with_defaults (raw : RawData) (n : Nat) :
    ("energy_flow" ∈ keysEV (enhanceData raw n) ∧
     "power_balance" ∈ keysEV (enhanceData raw n) ∧
     "battery_status" ∈ keysEV (enhanceData raw n) ∧
     "collection_metadata" ∈ keysEV (enhanceData raw n)) ∧
    ("system_efficiency" ∉ keysRaw raw → rawGetD raw "ac_power_input" ≤ 0 →
      "system_efficiency" ∉ keysEV (enhanceData raw n)) ∧
    ("working_mode_description" ∉ keysRaw raw →
      lookupRaw raw "working_mode" = none →
      "working_mode_description" ∉ keysEV (enhanceData raw n)) ∧
    ("fault_description" ∉ keysRaw raw → lookupRaw raw "fault_code" = none →
      "fault_description" ∉ keysEV (enhanceData raw n)) := by
  refine ⟨⟨?_, ?_, ?_, ?_⟩, ?_, ?_, ?_⟩
  · unfold enhanceData
    rw [mem_keysEV_dsetEV _ _ _ (by decide),
      mem_keysEV_enhStage6 raw (by decide),
      mem_keysEV_enhStage5 raw (by decide),
      mem_keysEV_enhStage4 raw (by decide)]
    unfold enhStage3
    rw [mem_keysEV_dsetEV _ _ _ (by decide)]
    unfold enhStage2
    rw [mem_keysEV_dsetEV _ _ _ (by decide)]
    exact self_mem_keysEV_dsetEV _ _ _
  · unfold enhanceData
    rw [mem_keysEV_dsetEV _ _ _ (by decide),
      mem_keysEV_enhStage6 raw (by decide),
      mem_keysEV_enhStage5 raw (by decide),
      mem_keysEV_enhStage4 raw (by decide)]
    unfold enhStage3
    rw [mem_keysEV_dsetEV _ _ _ (by decide)]
    exact self_mem_keysEV_dsetEV _ _ _
  · unfold enhanceData
    rw [mem_keysEV_dsetEV _ _ _ (by decide),
      mem_keysEV_enhStage6 raw (by decide),
      mem_keysEV_enhStage5 raw (by decide),
      mem_keysEV_enhStage4 raw (by decide)]
    exact self_mem_keysEV_dsetEV _ _ _
  · unfold enhanceData
    exact self_mem_keysEV_dsetEV _ _ _
  · intro hraw hle
    exact sysEff_absent raw n hraw hle
  · intro hraw hnone
    have h5 : enhStage5 raw = enhStage4 raw := by
      unfold enhStage5
      rw [hnone]
    unfold enhanceData
    rw [mem_keysEV_dsetEV _ _ _ (by decide),
      mem_keysEV_enhStage6 raw (by decide), h5,
      mem_keysEV_enhStage4 raw (by decide)]
    unfold enhStage3
    rw [mem_keysEV_dsetEV _ _ _ (by decide)]
    unfold enhStage2
    rw [mem_keysEV_dsetEV _ _ _ (by decide)]
    unfold enhStage1
    rw [mem_keysEV_dsetEV _ _ _ (by decide), keysEV_base]
    exact hraw
  · intro hraw hnone
    have h6 : enhStage6 raw = enhStage5 raw := by
      unfold enhStage6
      rw [hnone]
    unfold enhanceData
    rw [mem_keysEV_dsetEV _ _ _ (by decide), h6,
      mem_keysEV_enhStage5 raw (by decide),
      mem_keysEV_enhStage4 raw (by decide)]
    unfold enhStage3
    rw [mem_keysEV_dsetEV _ _ _ (by decide)]
    unfold enhStage2
    rw [mem_keysEV_dsetEV _ _ _ (by decide)]
    unfold enhStage1
    rw [mem_keysEV_dsetEV _ _ _ (by decide), keysEV_base]
    exact hraw

theorem enrich_total_witness :
    "energy_flow" ∈ keysEV (enhanceData [("battery_soc", 55)] 1) ∧
      "system_efficiency" ∉ keysRaw [(("battery_soc" : String), (55 : Int))] ∧
      "system_efficiency" ∉ keysEV (enhanceData [("battery_soc", 55)] 1) :=
  ⟨(enrich_total_with_defaults [("battery_soc", 55)] 1).1.1, by decide,
    (enrich_total_with_defaults [("battery_soc", 55)] 1).2.1 (by decide) (by decide)⟩

/-- C7 counterexample: on the empty raw mapping (every input field
absent) the enricher still produces `energy_flow = "grid_to_load"`,
`power_balance = 0` and `battery_status = "critical"` — the derivations
are not skipped, against the claim that absent inputs make the derived
fields absent. -/
theorem enrich_defaults_on_missing_input :
    enhanceData [] 0 =
      [("energy_flow", EV.s "grid_to_load"), ("power_balance", EV.i 0),
       ("battery_status", EV.s "critical"),
       ("collection_metadata", EV.meta "no_data" 0)] := by rfl

/-- C10: the curated sampler register list contains no `ac_power_input`,
and `_enhance_data` inserts `system_efficiency` only when
`ac_power_input` is present with a positive value; hence no mapping
whose keys all come from the curated list ever yields a
`system_efficiency` field. -/
theorem sampler_never_system_efficiency (raw : RawData) (n : Nat)
    (h : ∀ p ∈ raw, p.1 ∈ keyRegisters) :
    "system_efficiency" ∉ keysEV (enhanceData raw n) := by
  have hnotin : "system_efficiency" ∉ keysRaw raw := by
    intro hmem
    obtain ⟨p, hp, hpk⟩ := List.mem_map.mp hmem
    have hmem2 := h p hp
    rw [hpk] at hmem2
    revert hmem2
    decide
  have hfind : raw.find? (fun p => p.1 == "ac_power_input") = none := by
    rw [List.find?_eq_none]
    intro p hp
    simp only [beq_iff_eq]
    intro heq
    have hmem2 := h p hp
    rw [heq] at hmem2
    revert hmem2
    decide
  have hlookup : lookupRaw raw "ac_power_input" = none := by
    unfold lookupRaw
    rw [hfind]
    rfl
  have hle : rawGetD raw "ac_power_input" ≤ 0 := by
    unfold rawGetD
    rw [hlookup]
    exact le_refl 0
  exact sysEff_absent raw n hnotin hle

theorem sampler_never_system_efficiency_witness :
    (∀ p ∈ [(("battery_soc" : String), (55 : Int))], p.1 ∈ keyRegisters) ∧
      "system_efficiency" ∉ keysEV (enhanceData [("battery_soc", 55)] 0) :=
  ⟨by decide, sampler_never_system_efficiency [("battery_soc", 55)] 0 (by decide)⟩

/-- Enum `ModbusDataType` from `modbus_client.py`. -/
inductive MDataType
  | u16
  | i16
  | u32
  | i32
  | f32
  | boolType
deriving DecidableEq, Repr

/-- A decoded register value (`convert_register_value` returns an int
for the integer types and a bool for BOOL; the FLOAT32 branch is not
modelled, see `convertRegisterValue`). -/
inductive RegValue
  | int (n : Int)
  | bool (b : Bool)
deriving DecidableEq, Repr

/-- Python `int()` on a rational: truncation toward zero. -/
def pyInt (x : ℚ) : Int := if 0 ≤ x then ⌊x⌋ else ⌈x⌉

/-- Method `ModbusClient.convert_register_value`.  `None` on an empty buffer or
a short buffer for the two-word types; UINT16 is `int(word * scale)`,
INT16 reinterprets words above 32767 as two's complement before
scaling, UINT32/INT32 assemble `(raw[0] << 16) | raw[1]`; the FLOAT32
branch (IEEE-754 bit packing) is not modelled and yields `none`; the
unknown-type fallback of the source is unreachable over the closed
enum. -/
def convertRegisterValue (rawValues : List Nat) (dt : MDataType) (scale : ℚ) :
    Option RegValue :=
  match rawValues with
  | [] => none
  | w :: rest =>
    match dt with
    | .u16 => some (.int (pyInt ((w : ℚ) * scale)))
    | .i16 =>
      let v : Int := if (w : Int) > 32767 then (w : Int) - 65536 else (w : Int)
      some (.int (pyInt ((v : ℚ) * scale)))
    | .u32 =>
      match rest with
      | [] => none
      | w2 :: _ =>
        let v : Nat := (w <<< 16) ||| w2
        some (.int (pyInt ((v : ℚ) * scale)))
    | .i32 =>
      match rest with
      | [] => none
      | w2 :: _ =>
        let v0 : Int := (((w <<< 16) ||| w2 : Nat) : Int)
        let v : Int := if v0 > 2147483647 then v0 - 4294967296 else v0
        some (.int (pyInt ((v : ℚ) * scale)))
    | .f32 => none
    | .boolType => some (.bool (decide (w ≠ 0)))

/-- The write encoding of `ModbusClient.write_register_by_name`:
`int(value / scale)` for UINT16 and INT16; any wider type is rejected as
not implemented. -/
def encodeWriteValue (dt : MDataType) (scale : ℚ) (value : ℚ) : Option Int :=
  match dt with
  | .u16 => some (pyInt (value / scale))
  | .i16 => some (pyInt (value / scale))
  | _ => none

theorem pyInt_intCast (m : Int) : pyInt ((m : ℚ)) = m := by
  unfold pyInt
  split
  · exact Int.floor_intCast m
  · exact Int.ceil_intCast m

theorem pyInt_natCast (n : Nat) : pyInt ((n : ℚ)) = (n : Int) := by
  have h := pyInt_intCast ((n : Int))
  rwa [Int.cast_natCast] at h

theorem pyInt_neg (x : ℚ) : pyInt (-x) = - pyInt x := by
  unfold pyInt
  rcases lt_trichotomy x 0 with h | rfl | h
  · rw [if_pos (by linarith), if_neg (by linarith), Int.floor_neg]
  · simp
  · rw [if_neg (by linarith), if_pos (by linarith), Int.ceil_neg]

theorem shl16_lor_eq (a b : Nat) (h : b < 2 ^ 16) :
    a <<< 16 ||| b = a * 2 ^ 16 + b := by
  apply Nat.eq_of_testBit_eq
  intro i
  rw [Nat.testBit_lor, Nat.testBit_shiftLeft, Nat.mul_comm a (2 ^ 16),
    Nat.testBit_mul_pow_two_add a h i]
  by_cases hi : i < 16
  · rw [if_pos hi]
    have h2 : ¬ (16 ≤ i) := by omega
    simp [h2]
  · rw [if_neg hi]
    have h16 : 16 ≤ i := by omega
    have hb : Nat.testBit b i = false := by
      apply Nat.testBit_lt_two_pow
      calc b < 2 ^ 16 := h
        _ ≤ 2 ^ i := Nat.pow_le_pow_right (by norm_num) h16
    simp [h16, hb]

theorem assemble_words (v : Nat) :
    (v / 65536) <<< 16 ||| v % 65536 = v := by
  rw [shl16_lor_eq _ _ (by have := Nat.mod_lt v (show 0 < 65536 by norm_num); norm_num; omega)]
  have := Nat.div_add_mod v 65536
  norm_num
  omega

/-- C8 counterexample: with the real `battery_voltage` descriptor
(UINT16, scale 0.1) the raw word 123 (12.3 V) decodes to `int(12.3) = 12`
and re-encodes to `int(12 / 0.1) = 120 ≠ 123`: the round trip is not the
identity on valid inputs. -/
theorem codec_roundtrip_fails_at_fractional_scale :
    convertRegisterValue [123] .u16 (1/10) = some (.int 12) ∧
    encodeWriteValue .u16 (1/10) ((12 : Int) : ℚ) = some 120 ∧
    (120 : Int) ≠ 123 := by
  refine ⟨?_, ?_, by decide⟩
  · show some (RegValue.int (pyInt ((123 : ℚ) * (1/10)))) = some (.int 12)
    have h : pyInt ((123 : ℚ) * (1/10)) = 12 := by
      unfold pyInt
      rw [if_pos (by norm_num)]
      norm_num [Int.floor_eq_iff]
    rw [h]
  · show some (pyInt (((12 : Int) : ℚ) / (1/10))) = some 120
    have h : pyInt (((12 : Int) : ℚ) / (1/10)) = 120 := by
      have h2 : ((12 : Int) : ℚ) / (1/10) = ((120 : Int) : ℚ) := by norm_num
      rw [h2, pyInt_intCast]
    rw [h]

/-- C8 (amended): the decode-then-encode round trip is the identity for
the write-supported types U16 and I16 at scale 1 (for I16 on the
non-negative half of the word range); I16 and I32 sign handling is
symmetric around zero for every scale (decoding the two's-complement
word(s) of `-n` gives the negation of decoding the word(s) of `n`); and
encoding is rejected for all wider types. -/
theorem codec_roundtrip_amended (w n m : Nat) (s : ℚ)
    (_hw : w < 65536) (hw16 : w ≤ 32767) (hn1 : 1 ≤ n) (hn : n ≤ 32767)
    (hm1 : 1 ≤ m) (hm : m ≤ 2147483647) :
    (convertRegisterValue [w] .u16 1 = some (.int (w : Int)) ∧
     encodeWriteValue .u16 1 ((w : Int) : ℚ) = some (w : Int)) ∧
    (convertRegisterValue [w] .i16 1 = some (.int (w : Int)) ∧
     encodeWriteValue .i16 1 ((w : Int) : ℚ) = some (w : Int)) ∧
    (convertRegisterValue [65536 - n] .i16 s =
       some (.int (- pyInt ((n : ℚ) * s))) ∧
     convertRegisterValue [n] .i16 s = some (.int (pyInt ((n : ℚ) * s)))) ∧
    (convertRegisterValue
        [(4294967296 - m) / 65536, (4294967296 - m) % 65536] .i32 s =
       some (.int (- pyInt ((m : ℚ) * s))) ∧
     convertRegisterValue [m / 65536, m % 65536] .i32 s =
       some (.int (pyInt ((m : ℚ) * s)))) ∧
    (encodeWriteValue .u32 s 1 = none ∧ encodeWriteValue .i32 s 1 = none ∧
     encodeWriteValue .f32 s 1 = none ∧
     encodeWriteValue .boolType s 1 = none) := by
  refine ⟨⟨?_, ?_⟩, ⟨?_, ?_⟩, ⟨?_, ?_⟩, ⟨?_, ?_⟩, rfl, rfl, rfl, rfl⟩
  · show some (RegValue.int (pyInt ((w : ℚ) * 1))) = some (.int (w : Int))
    rw [mul_one, pyInt_natCast]
  · show some (pyInt (((w : Int) : ℚ) / 1)) = some ((w : Int))
    rw [div_one, pyInt_intCast]
  · show some (RegValue.int (pyInt
        ((((if (w : Int) > 32767 then (w : Int) - 65536 else (w : Int) : Int)) : ℚ)
          * 1))) = some (.int (w : Int))
    rw [if_neg (not_lt.mpr (show (w : Int) ≤ 32767 by exact_mod_cast hw16)),
      mul_one, pyInt_intCast]
  · show some (pyInt (((w : Int) : ℚ) / 1)) = some ((w : Int))
    rw [div_one, pyInt_intCast]
  · show some (RegValue.int (pyInt
        ((((if ((65536 - n : Nat) : Int) > 32767
            then ((65536 - n : Nat) : Int) - 65536
            else ((65536 - n : Nat) : Int) : Int)) : ℚ) * s))) =
      some (.int (- pyInt ((n : ℚ) * s)))
    have hle : n ≤ 65536 := by omega
    have hcast : ((65536 - n : Nat) : Int) = 65536 - (n : Int) :=
      Nat.cast_sub hle
    rw [if_pos (by rw [hcast]; omega), hcast]
    have heq : (65536 : Int) - (n : Int) - 65536 = -(n : Int) := by ring
    rw [heq]
    have hq : (((-(n : Int)) : Int) : ℚ) = -((n : ℚ)) := by push_cast; ring
    rw [hq, neg_mul, pyInt_neg]
  · show some (RegValue.int (pyInt
        ((((if (n : Int) > 32767 then (n : Int) - 65536 else (n : Int) : Int)) : ℚ)
          * s))) = some (.int (pyInt ((n : ℚ) * s)))
    rw [if_neg (not_lt.mpr (show (n : Int) ≤ 32767 by exact_mod_cast hn))]
    norm_num
  · show some (RegValue.int (pyInt
        ((((if ((((4294967296 - m) / 65536) <<< 16 |||
                (4294967296 - m) % 65536 : Nat) : Int) > 2147483647
            then ((((4294967296 - m) / 65536) <<< 16 |||
                (4294967296 - m) % 65536 : Nat) : Int) - 4294967296
            else ((((4294967296 - m) / 65536) <<< 16 |||
                (4294967296 - m) % 65536 : Nat) : Int) : Int)) : ℚ) * s))) =
      some (.int (- pyInt ((m : ℚ) * s)))
    rw [assemble_words (4294967296 - m)]
    have hle : m ≤ 4294967296 := by omega
    have hcast : ((4294967296 - m : Nat) : Int) = 4294967296 - (m : Int) :=
      Nat.cast_sub hle
    rw [if_pos (by rw [hcast]; omega), hcast]
    have heq : (4294967296 : Int) - (m : Int) - 4294967296 = -(m : Int) := by ring
    rw [heq]
    have hq : (((-(m : Int)) : Int) : ℚ) = -((m : ℚ)) := by push_cast; ring
    rw [hq, neg_mul, pyInt_neg]
  · show some (RegValue.int (pyInt
        ((((if (((m / 65536) <<< 16 ||| m % 65536 : Nat) : Int) > 2147483647
            then (((m / 65536) <<< 16 ||| m % 65536 : Nat) : Int) - 4294967296
            else (((m / 65536) <<< 16 ||| m % 65536 : Nat) : Int) : Int)) : ℚ)
          * s))) = some (.int (pyInt ((m : ℚ) * s)))
    rw [assemble_words m,
      if_neg (not_lt.mpr (show (m : Int) ≤ 2147483647 by exact_mod_cast hm))]
    norm_num

theorem codec_roundtrip_amended_witness :
    convertRegisterValue [123] .u16 1 = some (.int 123) ∧
      convertRegisterValue [65531] .i16 (1/10) =
        some (.int (- pyInt ((5 : ℚ) * (1/10)))) ∧
      encodeWriteValue .f32 (1/10) 1 = none :=
  ⟨(codec_roundtrip_amended 123 5 7 (1/10) (by decide) (by decide) (by decide)
      (by decide) (by decide) (by decide)).1.1,
    (codec_roundtrip_amended 123 5 7 (1/10) (by decide) (by decide) (by decide)
      (by decide) (by decide) (by decide)).2.2.1.1,
    (codec_roundtrip_amended 123 5 7 (1/10) (by decide) (by decide) (by decide)
      (by decide) (by decide) (by decide)).2.2.2.2.2.2.1⟩

end EdgeBridge
